import Mathlib

set_option maxHeartbeats 1000000

/-! Shallow embedding of the HLR-projection and section-with-hatch core of
crates/cadhy-cad/cpp/bridge.cpp.  C++ doubles are modelled as real numbers;
kernel results (classified edge groups, section wires, tessellations, 3D
bounding boxes) are oracle inputs to the embedded pipeline functions. -/

/-- A 2D point (a pair of doubles in the source). -/
structure Pt2 where
  x : ℝ
  y : ℝ

/-- A 3D point (gp_Pnt in the source). -/
structure Pt3 where
  x : ℝ
  y : ℝ
  z : ℝ

/-- One cross-hatch segment (HatchLineFFI in the source). -/
structure HatchLine where
  start_x : ℝ
  start_y : ℝ
  end_x : ℝ
  end_y : ℝ

/-- Cyclically consecutive vertex pairs of a polygon: the loop over index j
with partner (j+1) mod n used by both polygon_signed_area and the hatch
intersection loop in bridge.cpp. -/
def cyclicEdges (l : List Pt2) : List (Pt2 × Pt2) := l.zip (l.rotate 1)

/-- The cross term x_i * y_j - x_j * y_i accumulated by polygon_signed_area
(bridge.cpp lines 3099-3102). -/
noncomputable def cross2 (p q : Pt2) : ℝ := p.x * q.y - q.x * p.y

/-- Numerator of the shoelace formula: the sum of cross terms over all
cyclically consecutive vertex pairs. -/
noncomputable def cyclicSum (l : List Pt2) : ℝ :=
  ((cyclicEdges l).map (fun pq => cross2 pq.1 pq.2)).sum

/-- Shallow embedding of polygon_signed_area (bridge.cpp lines 3096-3105):
half the cyclic sum of cross terms; positive for counter-clockwise loops. -/
noncomputable def polygon_signed_area (pts : List Pt2) : ℝ := cyclicSum pts / 2

/-- Intersection of one candidate hatch line with one polygon edge
(bridge.cpp lines 3044-3068): skip near-parallel edges, accept the crossing
only when the edge parameter lies in the closed interval [0,1], and return
the parameter of the crossing along the hatch line. -/
noncomputable def hatchEdgeIntersection (cos_a sin_a hx hy : ℝ) (e : Pt2 × Pt2) :
    Option ℝ :=
  let dx := e.2.x - e.1.x
  let dy := e.2.y - e.1.y
  let denom := dx * sin_a - dy * cos_a
  if |denom| < 1e-10 then none
  else
    let t_edge := ((hx - e.1.x) * sin_a - (hy - e.1.y) * cos_a) / denom
    if 0 ≤ t_edge ∧ t_edge ≤ 1 then
      let ix := e.1.x + t_edge * dx
      let iy := e.1.y + t_edge * dy
      some ((ix - hx) * cos_a + (iy - hy) * sin_a)
    else none

/-- Pairing of the sorted crossing parameters (bridge.cpp lines 3075-3091):
consecutive pairs (0,1),(2,3),... become segments, a trailing unpaired value
is dropped, and segments of length at most 1e-6 are dropped. -/
noncomputable def pairIntersections (cos_a sin_a hx hy : ℝ) : List ℝ → List HatchLine
  | t1 :: t2 :: rest =>
      let sx := hx + t1 * cos_a
      let sy := hy + t1 * sin_a
      let ex := hx + t2 * cos_a
      let ey := hy + t2 * sin_a
      let len := Real.sqrt ((ex - sx) ^ 2 + (ey - sy) ^ 2)
      (if len > 1e-6 then [HatchLine.mk sx sy ex ey] else []) ++
        pairIntersections cos_a sin_a hx hy rest
  | _ => []

/-- All hatch segments contributed by the candidate line at a given offset
(one iteration of the outer loop of generate_hatch_lines_for_region):
collect edge crossings, sort them ascending (std::sort), pair them up. -/
noncomputable def hatchSegmentsAtOffset (boundary : List Pt2)
    (cos_a sin_a cx cy offset : ℝ) : List HatchLine :=
  let hx := cx + offset * sin_a
  let hy := cy - offset * cos_a
  let ts := (cyclicEdges boundary).filterMap (hatchEdgeIntersection cos_a sin_a hx hy)
  pairIntersections cos_a sin_a hx hy (ts.insertionSort (fun a b => a ≤ b))

/-- Candidate line count of bridge.cpp line 3030: static_cast to int truncates
toward zero, and the operand sqrt(...)/spacing is nonnegative whenever the
guard spacing > 0 holds, so the cast is the floor. -/
noncomputable def hatch_num_lines (spacing min_x min_y max_x max_y : ℝ) : ℤ :=
  ⌊Real.sqrt ((max_x - min_x) ^ 2 + (max_y - min_y) ^ 2) / spacing⌋ + 2

/-- The offset indices -n, -n+1, ..., n of the candidate-line loop
(bridge.cpp line 3033). -/
def hatchIndices (n : ℤ) : List ℤ :=
  (List.range (2 * n + 1).toNat).map (fun (k : ℕ) => (k : ℤ) - n)

/-- Shallow embedding of generate_hatch_lines_for_region
(bridge.cpp lines 3009-3093). -/
noncomputable def generate_hatch_lines_for_region (boundary : List Pt2)
    (angle_deg spacing min_x min_y max_x max_y : ℝ) : List HatchLine :=
  if boundary.length < 3 ∨ spacing ≤ 0 then []
  else
    let angle_rad := angle_deg * Real.pi / 180
    let cos_a := Real.cos angle_rad
    let sin_a := Real.sin angle_rad
    let cx := (min_x + max_x) / 2
    let cy := (min_y + max_y) / 2
    (hatchIndices (hatch_num_lines spacing min_x min_y max_x max_y)).flatMap
      (fun i => hatchSegmentsAtOffset boundary cos_a sin_a cx cy ((i : ℝ) * spacing))

/-- Sum of cross terms over non-cyclic consecutive pairs; bookkeeping helper
for the rotation and reversal lemmas about the shoelace sum. -/
noncomputable def pathSum : List Pt2 → ℝ
  | p :: q :: rest => cross2 p q + pathSum (q :: rest)
  | _ => 0

/-- The unit square used by the spec's property P3. -/
noncomputable def unitSquare : List Pt2 := [⟨0, 0⟩, ⟨1, 0⟩, ⟨1, 1⟩, ⟨0, 1⟩]

/-- Largest double, the initializer std numeric_limits double max of the
running bounding boxes. -/
noncomputable def dblMax : ℝ := 1.7976931348623157e308

/-- Lowest double, the initializer std numeric_limits double lowest of the
running bounding boxes. -/
noncomputable def dblLowest : ℝ := -1.7976931348623157e308

/-- One section curve (SectionCurveFFI). -/
structure SectionCurve where
  is_closed : Bool
  points : List Pt2

/-- One hatch region (HatchRegionFFI).  The is_outer flag, a bool in the
source, is modelled as the proposition the source decides. -/
structure HatchRegion where
  boundary : List Pt2
  area : ℝ
  is_outer : Prop
  hatch_lines : List HatchLine

/-- Mutable state threaded through the wire loops of
compute_section_with_hatch. -/
structure SectionState where
  curves : List SectionCurve
  regions : List HatchRegion
  min_x : ℝ
  min_y : ℝ
  max_x : ℝ
  max_y : ℝ
  closedCount : ℕ
  num_hatch_lines : ℕ

/-- Output structure of compute_section_with_hatch (SectionWithHatchResult). -/
structure SectionWithHatchResult where
  curves : List SectionCurve
  regions : List HatchRegion
  min_x : ℝ
  min_y : ℝ
  max_x : ℝ
  max_y : ℝ
  num_regions : ℕ
  num_hatch_lines : ℕ

/-- Shallow embedding of project_point_to_plane (bridge.cpp lines 2995-3006):
dot products of the offset from the plane origin with the two plane axes. -/
noncomputable def project_point_to_plane (origin xAxis yAxis : Pt3) (p : Pt3) : Pt2 :=
  ⟨(p.x - origin.x) * xAxis.x + (p.y - origin.y) * xAxis.y + (p.z - origin.z) * xAxis.z,
   (p.x - origin.x) * yAxis.x + (p.y - origin.y) * yAxis.y + (p.z - origin.z) * yAxis.z⟩

/-- Running bounding-box update over a list of projected points, in walk
order, as done inside both wire loops of compute_section_with_hatch. -/
noncomputable def sectionBBoxFold (st : SectionState) (pts : List Pt2) : SectionState :=
  pts.foldl (fun s q =>
    { s with min_x := min s.min_x q.x, min_y := min s.min_y q.y,
             max_x := max s.max_x q.x, max_y := max s.max_y q.y }) st

/-- Body of the closed-wire loop of compute_section_with_hatch
(bridge.cpp lines 3170-3228): project the wire vertices, update the running
bounding box and the closed-wire counter, and when at least 3 points
resulted push one closed curve and one hatch region whose area is the
absolute shoelace area, whose is_outer flag decides signed area > 0, and
whose hatch lines are generated against the current running bounding box. -/
noncomputable def processClosedWire (origin xAxis yAxis : Pt3)
    (hatch_angle hatch_spacing : ℝ) (st : SectionState) (wire : List Pt3) :
    SectionState :=
  let boundary := wire.map (project_point_to_plane origin xAxis yAxis)
  let st1 := sectionBBoxFold st boundary
  let st1 := { st1 with closedCount := st1.closedCount + 1 }
  if 3 ≤ boundary.length then
    let sa := polygon_signed_area boundary
    let hl := generate_hatch_lines_for_region boundary hatch_angle hatch_spacing
        st1.min_x st1.min_y st1.max_x st1.max_y
    { st1 with
      curves := st1.curves ++ [⟨true, boundary⟩],
      regions := st1.regions ++ [⟨boundary, |sa|, 0 < sa, hl⟩],
      num_hatch_lines := st1.num_hatch_lines + hl.length }
  else st1

/-- Body of the open-wire loop of compute_section_with_hatch
(bridge.cpp lines 3231-3259): project, update the running bounding box, and
keep the open curve only when at least 2 points resulted. -/
noncomputable def processOpenWire (origin xAxis yAxis : Pt3)
    (st : SectionState) (wire : List Pt3) : SectionState :=
  let pts := wire.map (project_point_to_plane origin xAxis yAxis)
  let st1 := sectionBBoxFold st pts
  if 2 ≤ pts.length then { st1 with curves := st1.curves ++ [⟨false, pts⟩] }
  else st1

/-- The result value of compute_section_with_hatch as initialized at
bridge.cpp lines 3115-3123 and returned unchanged by every early-exit path. -/
noncomputable def initSectionResult : SectionWithHatchResult :=
  ⟨[], [], dblMax, dblMax, dblLowest, dblLowest, 0, 0⟩

/-- Final packaging of compute_section_with_hatch (bridge.cpp 3261-3273):
num_regions is the closed-wire count and the bounding box is zeroed exactly
when no curve was kept. -/
noncomputable def sectionFinalize (st : SectionState) : SectionWithHatchResult :=
  if st.curves.isEmpty then
    ⟨st.curves, st.regions, 0, 0, 0, 0, st.closedCount, st.num_hatch_lines⟩
  else
    ⟨st.curves, st.regions, st.min_x, st.min_y, st.max_x, st.max_y,
      st.closedCount, st.num_hatch_lines⟩

/-- Shallow embedding of compute_section_with_hatch (bridge.cpp 3107-3288).
The kernel interactions are oracle inputs: shape_null is the null test,
section_failed covers the section algorithm reporting not done, and the
closed and open wires are the vertex walks delivered by the free-bounds
partition.  The plane basis vectors are those the source builds from the
normal and up directions. -/
noncomputable def compute_section_with_hatch (shape_null section_failed : Bool)
    (closedWires openWires : List (List Pt3)) (origin xAxis yAxis : Pt3)
    (hatch_angle hatch_spacing : ℝ) : SectionWithHatchResult :=
  if shape_null then initSectionResult
  else if section_failed then initSectionResult
  else
    sectionFinalize (openWires.foldl (processOpenWire origin xAxis yAxis)
      (closedWires.foldl
        (processClosedWire origin xAxis yAxis hatch_angle hatch_spacing)
        ⟨[], [], dblMax, dblMax, dblLowest, dblLowest, 0, 0⟩))

/-- The unit square as a closed 3D section wire in the plane z = 0. -/
noncomputable def unitSquareWire : List Pt3 := [⟨0, 0, 0⟩, ⟨1, 0, 0⟩, ⟨1, 1, 0⟩, ⟨0, 1, 0⟩]

/-- One extracted 2D line (Line2DFFI). -/
structure Line2D where
  start_x : ℝ
  start_y : ℝ
  end_x : ℝ
  end_y : ℝ
  line_type : ℕ

/-- Output of compute_hlr_projection (HLRProjectionResult). -/
structure HLRProjectionResult where
  lines : List Line2D
  min_x : ℝ
  min_y : ℝ
  max_x : ℝ
  max_y : ℝ

/-- Kernel-delivered data of one classified edge for v1 extraction: none
models a null curve handle, otherwise the two 3D endpoint evaluations of
the curve at its first and last parameters. -/
abbrev EdgeV1 := Option (Pt3 × Pt3)

/-- State threaded through extract_2d_edges: the line list and the running
bounding box. -/
structure V1State where
  lines : List Line2D
  min_x : ℝ
  min_y : ℝ
  max_x : ℝ
  max_y : ℝ

/-- Body of the edge loop of extract_2d_edges (bridge.cpp 2324-2364): skip
null curves, skip edges whose 2D endpoint distance is at most 1e-7, else
update the running bounding box and push the line. -/
noncomputable def extract_2d_edges_step (line_type : ℕ) (st : V1State) (e : EdgeV1) :
    V1State :=
  match e with
  | none => st
  | some (sp, ep) =>
      let len := Real.sqrt ((ep.x - sp.x) ^ 2 + (ep.y - sp.y) ^ 2)
      if len ≤ 1e-7 then st
      else
        { lines := st.lines ++ [⟨sp.x, sp.y, ep.x, ep.y, line_type⟩],
          min_x := min (min st.min_x sp.x) ep.x,
          min_y := min (min st.min_y sp.y) ep.y,
          max_x := max (max st.max_x sp.x) ep.x,
          max_y := max (max st.max_y sp.y) ep.y }

/-- Shallow embedding of extract_2d_edges (bridge.cpp 2308-2373). -/
noncomputable def extract_2d_edges (line_type : ℕ) (st : V1State)
    (edges : List EdgeV1) : V1State :=
  edges.foldl (extract_2d_edges_step line_type) st

/-- The six visibility groups returned by the kernel classifier for v1
extraction, in the extraction order of bridge.cpp 2530-2551. -/
structure HLRGroups where
  vSharp : List EdgeV1
  hSharp : List EdgeV1
  vSmooth : List EdgeV1
  hSmooth : List EdgeV1
  vOutline : List EdgeV1
  hOutline : List EdgeV1

/-- The six successive extract_2d_edges calls of compute_hlr_projection
with line types 0 to 5. -/
noncomputable def extractAllV1 (g : HLRGroups) (st : V1State) : V1State :=
  extract_2d_edges 5
    (extract_2d_edges 4
      (extract_2d_edges 3
        (extract_2d_edges 2
          (extract_2d_edges 1
            (extract_2d_edges 0 st g.vSharp) g.hSharp) g.vSmooth) g.hSmooth)
      g.vOutline) g.hOutline

/-- The scaled projected rectangle of extract_bbox_edges (bridge.cpp
2396-2422): the projection plane is chosen by the dominant component of the
(already normalized) view direction, and scale is applied here. -/
noncomputable def bboxPlaneRect (bmin bmax : Pt3) (dir_x dir_y dir_z scale : ℝ) :
    ℝ × ℝ × ℝ × ℝ :=
  if |dir_y| > 0.9 then (bmin.x * scale, bmin.z * scale, bmax.x * scale, bmax.z * scale)
  else if |dir_z| > 0.9 then (bmin.x * scale, bmin.y * scale, bmax.x * scale, bmax.y * scale)
  else if |dir_x| > 0.9 then (bmin.y * scale, bmin.z * scale, bmax.y * scale, bmax.z * scale)
  else (bmin.x * scale, bmin.y * scale, bmax.x * scale, bmax.y * scale)

/-- Shallow embedding of extract_bbox_edges (bridge.cpp 2376-2445): the
3D bounding box of the shape is an oracle input, none when void.  The 4
edges of the projected rectangle are pushed with line type 4 (visible
outline) and the bounding box is assigned outright. -/
noncomputable def extract_bbox_edges (bbox3 : Option (Pt3 × Pt3))
    (dir_x dir_y dir_z scale : ℝ) (st : V1State) : V1State :=
  match bbox3 with
  | none => st
  | some (bmin, bmax) =>
      let p := bboxPlaneRect bmin bmax dir_x dir_y dir_z scale
      { lines := st.lines ++
          [⟨p.1, p.2.1, p.2.2.1, p.2.1, 4⟩,
           ⟨p.2.2.1, p.2.1, p.2.2.1, p.2.2.2, 4⟩,
           ⟨p.2.2.1, p.2.2.2, p.1, p.2.2.2, 4⟩,
           ⟨p.1, p.2.2.2, p.1, p.2.1, 4⟩],
        min_x := p.1, min_y := p.2.1, max_x := p.2.2.1, max_y := p.2.2.2 }

/-- Scaling pass of compute_hlr_projection (bridge.cpp 2562-2573). -/
noncomputable def scaleV1 (scale : ℝ) (st : V1State) : V1State :=
  { lines := st.lines.map (fun l =>
      ⟨l.start_x * scale, l.start_y * scale, l.end_x * scale, l.end_y * scale,
        l.line_type⟩),
    min_x := st.min_x * scale, min_y := st.min_y * scale,
    max_x := st.max_x * scale, max_y := st.max_y * scale }

/-- Shallow embedding of compute_hlr_projection (bridge.cpp 2447-2608).
Kernel interactions are oracle inputs: shape_null is the null test, faces
and edges are the topology counts, groups the classifier output and bbox3
the 3D bounding box.  The up direction only feeds the kernel projector, so
it does not appear in the post-kernel data flow modelled here. -/
noncomputable def compute_hlr_projection (shape_null : Bool) (faces edges : ℕ)
    (dir_x dir_y dir_z scale : ℝ) (groups : HLRGroups)
    (bbox3 : Option (Pt3 × Pt3)) : HLRProjectionResult :=
  if shape_null then ⟨[], dblMax, dblMax, dblLowest, dblLowest⟩
  else if faces = 0 ∧ edges = 0 then ⟨[], dblMax, dblMax, dblLowest, dblLowest⟩
  else
    let len := Real.sqrt (dir_x * dir_x + dir_y * dir_y + dir_z * dir_z)
    if len < 1e-10 then ⟨[], dblMax, dblMax, dblLowest, dblLowest⟩
    else
      let st1 := extractAllV1 groups ⟨[], dblMax, dblMax, dblLowest, dblLowest⟩
      let st2 := if st1.lines.isEmpty then
          extract_bbox_edges bbox3 (dir_x / len) (dir_y / len) (dir_z / len) scale st1
        else st1
      let st3 := if scale ≠ 1 ∧ st2.lines.isEmpty = false ∧ 0 < st1.lines.length then
          scaleV1 scale st2
        else st2
      if st3.lines.isEmpty then ⟨st3.lines, 0, 0, 0, 0⟩
      else ⟨st3.lines, st3.min_x, st3.min_y, st3.max_x, st3.max_y⟩

/-- Two-argument arctangent with the atan2 convention (angle of the point
(x, y)), used for circle start and end angles and the ellipse rotation. -/
noncomputable def atan2 (y x : ℝ) : ℝ := Complex.arg ⟨x, y⟩

/-- The kernel curve-type dispatch of extract_2d_curves (GeomAbs values). -/
inductive CurveKind
  | line
  | circle
  | ellipse
  | other
deriving DecidableEq

/-- Kernel-delivered data of one classified edge for v2 extraction: the
curve handle presence, the curve type, the endpoint evaluations, the
type-specific geometry accessors, the raw curve parameters, the edge
orientation and the tangential-deflection tessellation the kernel returns
for the current deflection. -/
structure EdgeV2 where
  has_curve : Bool
  kind : CurveKind
  startP : Pt3
  endP : Pt3
  center : Pt3
  radius : ℝ
  major_radius : ℝ
  minor_radius : ℝ
  xdir_x : ℝ
  xdir_y : ℝ
  param_first : ℝ
  param_last : ℝ
  reversed : Bool
  tess : List Pt2

/-- One typed 2D primitive (Curve2DFFI). -/
structure Curve2D where
  curve_type : ℕ
  line_type : ℕ
  start_x : ℝ
  start_y : ℝ
  end_x : ℝ
  end_y : ℝ
  center_x : ℝ
  center_y : ℝ
  radius : ℝ
  major_radius : ℝ
  minor_radius : ℝ
  start_angle : ℝ
  end_angle : ℝ
  rotation : ℝ
  ccw : Bool

/-- One tessellated polyline (Polyline2DFFI). -/
structure Polyline2D where
  line_type : ℕ
  points : List Pt2

/-- State threaded through extract_2d_curves. -/
structure V2State where
  curves : List Curve2D
  polylines : List Polyline2D
  min_x : ℝ
  min_y : ℝ
  max_x : ℝ
  max_y : ℝ
  num_edges : ℕ
  num_lines : ℕ
  num_arcs : ℕ
  num_polylines : ℕ

/-- Output of compute_hlr_projection_v2 (HLRProjectionResultV2). -/
structure HLRProjectionResultV2 where
  curves : List Curve2D
  polylines : List Polyline2D
  min_x : ℝ
  min_y : ℝ
  max_x : ℝ
  max_y : ℝ
  num_edges : ℕ
  num_lines : ℕ
  num_arcs : ℕ
  num_polylines : ℕ

/-- The 3D distance of two gp_Pnt values (used by the v2 degenerate test). -/
noncomputable def dist3 (p q : Pt3) : ℝ :=
  Real.sqrt ((q.x - p.x) ^ 2 + (q.y - p.y) ^ 2 + (q.z - p.z) ^ 2)

/-- Running bounding-box update over the tessellation points of one
polyline, in sample order (bridge.cpp 2787-2799). -/
noncomputable def v2PointFold (st : V2State) (pts : List Pt2) : V2State :=
  pts.foldl (fun s q =>
    { s with min_x := min s.min_x q.x, min_y := min s.min_y q.y,
             max_x := max s.max_x q.x, max_y := max s.max_y q.y }) st

/-- Body of the edge loop of extract_2d_curves (bridge.cpp 2634-2807): skip
null curves, skip straight lines whose 3D endpoint distance is at most
1e-7, update the running bounding box with the endpoint evaluations, then
dispatch on the curve type: lines and circles and ellipses push one typed
curve (circles and ellipses additionally widen the bounding box by their
center plus or minus radius, respectively major radius), and any other
type pushes its tessellation as a polyline when it has at least 2 points. -/
noncomputable def extract_2d_curves_step (line_type : ℕ) (st : V2State)
    (e : EdgeV2) : V2State :=
  if e.has_curve = false then st
  else
    let len := dist3 e.startP e.endP
    if len ≤ 1e-7 ∧ e.kind = CurveKind.line then st
    else
      let st1 := { st with
        min_x := min (min st.min_x e.startP.x) e.endP.x,
        min_y := min (min st.min_y e.startP.y) e.endP.y,
        max_x := max (max st.max_x e.startP.x) e.endP.x,
        max_y := max (max st.max_y e.startP.y) e.endP.y }
      match e.kind with
      | CurveKind.line =>
          { st1 with
            curves := st1.curves ++ [⟨0, line_type, e.startP.x, e.startP.y,
              e.endP.x, e.endP.y, 0, 0, 0, 0, 0, 0, 0, 0, false⟩],
            num_lines := st1.num_lines + 1, num_edges := st1.num_edges + 1 }
      | CurveKind.circle =>
          let st2 := { st1 with
            min_x := min st1.min_x (e.center.x - e.radius),
            min_y := min st1.min_y (e.center.y - e.radius),
            max_x := max st1.max_x (e.center.x + e.radius),
            max_y := max st1.max_y (e.center.y + e.radius) }
          let isFull := |e.param_first| < 1e-10 ∧ |e.param_last - 2 * Real.pi| < 1e-10
          { st2 with
            curves := st2.curves ++ [⟨if isFull then 2 else 1, line_type,
              e.startP.x, e.startP.y, e.endP.x, e.endP.y, e.center.x, e.center.y,
              e.radius, e.radius, e.radius,
              atan2 (e.startP.y - e.center.y) (e.startP.x - e.center.x),
              atan2 (e.endP.y - e.center.y) (e.endP.x - e.center.x),
              0, !e.reversed⟩],
            num_arcs := st2.num_arcs + 1, num_edges := st2.num_edges + 1 }
      | CurveKind.ellipse =>
          let st2 := { st1 with
            min_x := min st1.min_x (e.center.x - e.major_radius),
            min_y := min st1.min_y (e.center.y - e.major_radius),
            max_x := max st1.max_x (e.center.x + e.major_radius),
            max_y := max st1.max_y (e.center.y + e.major_radius) }
          { st2 with
            curves := st2.curves ++ [⟨3, line_type, e.startP.x, e.startP.y,
              e.endP.x, e.endP.y, e.center.x, e.center.y, e.major_radius,
              e.major_radius, e.minor_radius, e.param_first, e.param_last,
              atan2 e.xdir_y e.xdir_x, !e.reversed⟩],
            num_arcs := st2.num_arcs + 1, num_edges := st2.num_edges + 1 }
      | CurveKind.other =>
          if 2 ≤ e.tess.length then
            let st2 := v2PointFold st1 e.tess
            { st2 with
              polylines := st2.polylines ++ [⟨line_type, e.tess⟩],
              num_polylines := st2.num_polylines + 1,
              num_edges := st2.num_edges + 1 }
          else st1

/-- Shallow embedding of extract_2d_curves (bridge.cpp 2615-2810). -/
noncomputable def extract_2d_curves (line_type : ℕ) (st : V2State)
    (edges : List EdgeV2) : V2State :=
  edges.foldl (extract_2d_curves_step line_type) st

/-- The six visibility groups returned by the kernel classifier for v2
extraction, in the extraction order of bridge.cpp 2880-2908. -/
structure HLRGroupsV2 where
  vSharp : List EdgeV2
  hSharp : List EdgeV2
  vSmooth : List EdgeV2
  hSmooth : List EdgeV2
  vOutline : List EdgeV2
  hOutline : List EdgeV2

/-- The six successive extract_2d_curves calls of compute_hlr_projection_v2
with line types 0 to 5. -/
noncomputable def extractAllV2 (g : HLRGroupsV2) (st : V2State) : V2State :=
  extract_2d_curves 5
    (extract_2d_curves 4
      (extract_2d_curves 3
        (extract_2d_curves 2
          (extract_2d_curves 1
            (extract_2d_curves 0 st g.vSharp) g.hSharp) g.vSmooth) g.hSmooth)
      g.vOutline) g.hOutline

/-- Per-curve scaling of bridge.cpp 2919-2929: every coordinate and radius
is multiplied; the angles and rotation are left alone. -/
noncomputable def scaleCurve (scale : ℝ) (c : Curve2D) : Curve2D :=
  { c with start_x := c.start_x * scale, start_y := c.start_y * scale,
           end_x := c.end_x * scale, end_y := c.end_y * scale,
           center_x := c.center_x * scale, center_y := c.center_y * scale,
           radius := c.radius * scale, major_radius := c.major_radius * scale,
           minor_radius := c.minor_radius * scale }

/-- Per-polyline scaling of bridge.cpp 2930-2935. -/
noncomputable def scalePolyline (scale : ℝ) (p : Polyline2D) : Polyline2D :=
  { p with points := p.points.map (fun q => ⟨q.x * scale, q.y * scale⟩) }

/-- Scaling pass of compute_hlr_projection_v2 (bridge.cpp 2918-2940). -/
noncomputable def scaleV2 (scale : ℝ) (st : V2State) : V2State :=
  { st with curves := st.curves.map (scaleCurve scale),
            polylines := st.polylines.map (scalePolyline scale),
            min_x := st.min_x * scale, min_y := st.min_y * scale,
            max_x := st.max_x * scale, max_y := st.max_y * scale }

/-- Final packaging of compute_hlr_projection_v2 (bridge.cpp 2942-2948):
the bounding box is zeroed when neither curves nor polylines were kept. -/
noncomputable def v2Finalize (st : V2State) : HLRProjectionResultV2 :=
  if st.curves.isEmpty ∧ st.polylines.isEmpty then
    ⟨st.curves, st.polylines, 0, 0, 0, 0, st.num_edges, st.num_lines,
      st.num_arcs, st.num_polylines⟩
  else
    ⟨st.curves, st.polylines, st.min_x, st.min_y, st.max_x, st.max_y,
      st.num_edges, st.num_lines, st.num_arcs, st.num_polylines⟩

/-- Shallow embedding of compute_hlr_projection_v2 (bridge.cpp 2812-2963).
Kernel interactions are oracle inputs; a nonpositive deflection is replaced
by 0.01 in the source before it feeds the kernel tessellator, which here
delivers its output inside the edge data, so deflection does not otherwise
appear in the modelled data flow. -/
noncomputable def compute_hlr_projection_v2 (shape_null : Bool)
    (dir_x dir_y dir_z scale deflection : ℝ) (groups : HLRGroupsV2) :
    HLRProjectionResultV2 :=
  if shape_null then ⟨[], [], dblMax, dblMax, dblLowest, dblLowest, 0, 0, 0, 0⟩
  else
    let len := Real.sqrt (dir_x * dir_x + dir_y * dir_y + dir_z * dir_z)
    if len < 1e-10 then ⟨[], [], dblMax, dblMax, dblLowest, dblLowest, 0, 0, 0, 0⟩
    else
      let st1 := extractAllV2 groups ⟨[], [], dblMax, dblMax, dblLowest, dblLowest, 0, 0, 0, 0⟩
      let st2 := if scale ≠ 1 then scaleV2 scale st1 else st1
      v2Finalize st2

/-- The x coordinates a non-skipped edge feeds into the running min_x of
extract_2d_curves, in source order: the endpoint evaluations, then the
circle extent center minus radius (ellipse: center minus major radius),
then the kept tessellation points. -/
noncomputable def edgeMinXs (e : EdgeV2) : List ℝ :=
  if e.has_curve = false then []
  else if dist3 e.startP e.endP ≤ 1e-7 ∧ e.kind = CurveKind.line then []
  else [e.startP.x, e.endP.x] ++
    (match e.kind with
     | CurveKind.line => []
     | CurveKind.circle => [e.center.x - e.radius]
     | CurveKind.ellipse => [e.center.x - e.major_radius]
     | CurveKind.other =>
         if 2 ≤ e.tess.length then e.tess.map Pt2.x else [])

/-- The y coordinates a non-skipped edge feeds into the running min_y. -/
noncomputable def edgeMinYs (e : EdgeV2) : List ℝ :=
  if e.has_curve = false then []
  else if dist3 e.startP e.endP ≤ 1e-7 ∧ e.kind = CurveKind.line then []
  else [e.startP.y, e.endP.y] ++
    (match e.kind with
     | CurveKind.line => []
     | CurveKind.circle => [e.center.y - e.radius]
     | CurveKind.ellipse => [e.center.y - e.major_radius]
     | CurveKind.other =>
         if 2 ≤ e.tess.length then e.tess.map Pt2.y else [])

/-- The x coordinates a non-skipped edge feeds into the running max_x. -/
noncomputable def edgeMaxXs (e : EdgeV2) : List ℝ :=
  if e.has_curve = false then []
  else if dist3 e.startP e.endP ≤ 1e-7 ∧ e.kind = CurveKind.line then []
  else [e.startP.x, e.endP.x] ++
    (match e.kind with
     | CurveKind.line => []
     | CurveKind.circle => [e.center.x + e.radius]
     | CurveKind.ellipse => [e.center.x + e.major_radius]
     | CurveKind.other =>
         if 2 ≤ e.tess.length then e.tess.map Pt2.x else [])

/-- The y coordinates a non-skipped edge feeds into the running max_y. -/
noncomputable def edgeMaxYs (e : EdgeV2) : List ℝ :=
  if e.has_curve = false then []
  else if dist3 e.startP e.endP ≤ 1e-7 ∧ e.kind = CurveKind.line then []
  else [e.startP.y, e.endP.y] ++
    (match e.kind with
     | CurveKind.line => []
     | CurveKind.circle => [e.center.y + e.radius]
     | CurveKind.ellipse => [e.center.y + e.major_radius]
     | CurveKind.other =>
         if 2 ≤ e.tess.length then e.tess.map Pt2.y else [])

/-- All coordinates the six extraction passes fold into one bounding-box
component, for a given per-edge collector. -/
noncomputable def v2Collected (f : EdgeV2 → List ℝ) (g : HLRGroupsV2) : List ℝ :=
  g.vSharp.flatMap f ++ g.hSharp.flatMap f ++ g.vSmooth.flatMap f ++
    g.hSmooth.flatMap f ++ g.vOutline.flatMap f ++ g.hOutline.flatMap f

/-- The x coordinates of one emitted primitive according to the words of
spec property P6: the coordinates of the primitive, with circle and ellipse
extents taken as center plus or minus radius. -/
noncomputable def curveSpecXs (c : Curve2D) : List ℝ :=
  if c.curve_type = 0 then [c.start_x, c.end_x]
  else [c.start_x, c.end_x, c.center_x - c.radius, c.center_x + c.radius]

/-- The y coordinates of one emitted primitive according to the words of
spec property P6. -/
noncomputable def curveSpecYs (c : Curve2D) : List ℝ :=
  if c.curve_type = 0 then [c.start_y, c.end_y]
  else [c.start_y, c.end_y, c.center_y - c.radius, c.center_y + c.radius]

/-- The bounding box claimed by spec property P6, written from the spec
words for comparison with the one the code computes: the componentwise
min and max over the coordinates of every emitted primitive, or the zero
rectangle when nothing was emitted. -/
noncomputable def specBBoxV2 (curves : List Curve2D) (polylines : List Polyline2D) :
    ℝ × ℝ × ℝ × ℝ :=
  if curves.isEmpty ∧ polylines.isEmpty then (0, 0, 0, 0)
  else
    let xs := curves.flatMap curveSpecXs ++ polylines.flatMap (fun p => p.points.map Pt2.x)
    let ys := curves.flatMap curveSpecYs ++ polylines.flatMap (fun p => p.points.map Pt2.y)
    (xs.foldl min dblMax, ys.foldl min dblMax, xs.foldl max dblLowest,
      ys.foldl max dblLowest)

/-- A simple counter-clockwise polygon with two towers over a low valley:
vertices (0,0),(6,0),(6,2),(4,2),(4,0.5),(2,0.5),(2,1),(2,2),(0,2).  The
horizontal line y = 1 meets it at x = 0 and x = 6 on the outer walls, at
x = 4 on the right inner wall, and exactly at the boundary vertex (2,1) of
the left inner wall. -/
noncomputable def valley : List Pt2 :=
  [⟨0, 0⟩, ⟨6, 0⟩, ⟨6, 2⟩, ⟨4, 2⟩, ⟨4, 0.5⟩, ⟨2, 0.5⟩, ⟨2, 1⟩, ⟨2, 2⟩, ⟨0, 2⟩]

/-- Modelled from the spec: the point-in-polygon test named by property P1
(the source has no explicit point-in-polygon function).  Standard even-odd
rule: the number of polygon edges a horizontal ray to the right of p
crosses; the point is strictly inside exactly when the count is odd. -/
noncomputable def evenOddCrossings (poly : List Pt2) (p : Pt2) : ℕ :=
  ((cyclicEdges poly).map (fun e =>
    if ((e.1.y ≤ p.y ∧ p.y < e.2.y) ∨ (e.2.y ≤ p.y ∧ p.y < e.1.y))
        ∧ p.x < e.1.x + (p.y - e.1.y) * (e.2.x - e.1.x) / (e.2.y - e.1.y)
      then 1 else 0)).sum

/-- A straight classified edge from (1,2,0) to (3,4,0). -/
noncomputable def lineEdgeA : EdgeV2 :=
  ⟨true, CurveKind.line, ⟨1, 2, 0⟩, ⟨3, 4, 0⟩, ⟨0, 0, 0⟩, 0, 0, 0, 0, 0, 0, 0,
    false, []⟩

/-- Classifier output holding only the single visible sharp edge lineEdgeA. -/
noncomputable def groupsA : HLRGroupsV2 := ⟨[lineEdgeA], [], [], [], [], []⟩

/-- A degenerate straight edge with coincident endpoint evaluations. -/
noncomputable def degenEdge : EdgeV2 :=
  ⟨true, CurveKind.line, ⟨0, 0, 0⟩, ⟨0, 0, 0⟩, ⟨0, 0, 0⟩, 0, 0, 0, 0, 0, 0, 0,
    false, []⟩

theorem cross2_antisymm (p q : Pt2) : cross2 q p = -cross2 p q := by
  unfold cross2; ring

theorem pathSum_cons_cons (p q : Pt2) (t : List Pt2) :
    pathSum (p :: q :: t) = cross2 p q + pathSum (q :: t) := by
  simp [pathSum]

theorem zip_snoc_sum : ∀ (l : List Pt2) (p z : Pt2),
    (((p :: l).zip (l ++ [z])).map (fun pq => cross2 pq.1 pq.2)).sum
      = pathSum (p :: l) + cross2 ((p :: l).getLast (List.cons_ne_nil p l)) z := by
  intro l
  induction l with
  | nil => intro p z; simp [pathSum]
  | cons q t ih =>
      intro p z
      have h1 : ((p :: q :: t).zip ((q :: t) ++ [z]))
          = (p, q) :: ((q :: t).zip (t ++ [z])) := by
        simp
      rw [h1, List.map_cons, List.sum_cons, ih q z, pathSum_cons_cons,
        List.getLast_cons (List.cons_ne_nil q t)]
      ring

theorem cyclicSum_cons (p : Pt2) (l : List Pt2) :
    cyclicSum (p :: l)
      = pathSum (p :: l) + cross2 ((p :: l).getLast (List.cons_ne_nil p l)) p := by
  have hrot : (p :: l).rotate 1 = l ++ [p] := by
    simpa using List.rotate_cons_succ l p 0
  rw [cyclicSum, cyclicEdges, hrot, zip_snoc_sum l p p]

theorem cyclicSum_ne_nil (l : List Pt2) (h : l ≠ []) :
    cyclicSum l = pathSum l + cross2 (l.getLast h) (l.head h) := by
  obtain ⟨p, m, rfl⟩ := List.exists_cons_of_ne_nil h
  simpa using cyclicSum_cons p m

theorem pathSum_snoc : ∀ (m : List Pt2) (p z : Pt2),
    pathSum ((p :: m) ++ [z])
      = pathSum (p :: m) + cross2 ((p :: m).getLast (List.cons_ne_nil p m)) z := by
  intro m
  induction m with
  | nil => intro p z; simp [pathSum]
  | cons q t ih =>
      intro p z
      have h1 : ((p :: q :: t) ++ [z]) = p :: ((q :: t) ++ [z]) := by simp
      rw [h1]
      have h2 : ((q :: t) ++ [z]) = q :: (t ++ [z]) := by simp
      rw [h2, pathSum_cons_cons, ← h2, ih q, pathSum_cons_cons,
        List.getLast_cons (List.cons_ne_nil q t)]
      ring

theorem pathSum_append_singleton (l : List Pt2) (h : l ≠ []) (z : Pt2) :
    pathSum (l ++ [z]) = pathSum l + cross2 (l.getLast h) z := by
  obtain ⟨p, m, rfl⟩ := List.exists_cons_of_ne_nil h
  exact pathSum_snoc m p z

theorem cyclicSum_rotate_one (l : List Pt2) : cyclicSum (l.rotate 1) = cyclicSum l := by
  match l with
  | [] => simp
  | [p] => simp [List.rotate]
  | p :: q :: t =>
      have hrot : (p :: q :: t).rotate 1 = (q :: t) ++ [p] := by
        simpa using List.rotate_cons_succ (q :: t) p 0
      have hne : (q :: t) ++ [p] ≠ [] := by simp
      rw [hrot, cyclicSum_ne_nil _ hne, cyclicSum_cons,
        pathSum_append_singleton (q :: t) (List.cons_ne_nil q t) p]
      have hlast : ((q :: t) ++ [p]).getLast hne = p := by
        simp [List.getLast_append]
      have hhead : ((q :: t) ++ [p]).head hne = q := by simp
      rw [hlast, hhead, pathSum_cons_cons, List.getLast_cons (List.cons_ne_nil q t)]
      ring

theorem cyclicSum_rotate (l : List Pt2) (k : ℕ) : cyclicSum (l.rotate k) = cyclicSum l := by
  induction k with
  | zero => simp
  | succ n ih =>
      have : l.rotate (n + 1) = (l.rotate n).rotate 1 := by
        rw [List.rotate_rotate]
      rw [this, cyclicSum_rotate_one, ih]

theorem pathSum_reverse (l : List Pt2) : pathSum l.reverse = -pathSum l := by
  induction l with
  | nil => simp [pathSum]
  | cons p m ih =>
      match m, ih with
      | [], _ => simp [pathSum]
      | q :: t, ih =>
          have h1 : (p :: q :: t).reverse = (q :: t).reverse ++ [p] := by simp
          have hne : (q :: t).reverse ≠ [] := by simp
          rw [h1, pathSum_append_singleton _ hne p, ih]
          have h2 : (q :: t).reverse.getLast hne = q := by
            have h3 : (q :: t).reverse = t.reverse ++ [q] := by simp
            simp [h3, List.getLast_append]
          rw [h2, pathSum_cons_cons, cross2_antisymm p q]
          ring

theorem head_reverse_getLast (l : List Pt2) (h : l ≠ []) (h2 : l.reverse ≠ []) :
    l.reverse.head h2 = l.getLast h := by
  have := List.head?_reverse l
  rw [List.head?_eq_head h2, List.getLast?_eq_getLast l h] at this
  exact Option.some_injective _ this

theorem getLast_reverse_head (l : List Pt2) (h : l ≠ []) (h2 : l.reverse ≠ []) :
    l.reverse.getLast h2 = l.head h := by
  have := List.getLast?_reverse l
  rw [List.getLast?_eq_getLast l.reverse h2, List.head?_eq_head h] at this
  exact Option.some_injective _ this

theorem cyclicSum_reverse (l : List Pt2) : cyclicSum l.reverse = -cyclicSum l := by
  match l with
  | [] => simp [cyclicSum, cyclicEdges]
  | p :: m =>
      have h : (p :: m) ≠ [] := List.cons_ne_nil p m
      have h2 : (p :: m).reverse ≠ [] := by simp
      rw [cyclicSum_ne_nil _ h2, cyclicSum_ne_nil _ h, pathSum_reverse,
        head_reverse_getLast _ h h2, getLast_reverse_head _ h h2,
        cross2_antisymm ((p :: m).getLast h) ((p :: m).head h)]
      ring

theorem psa_unitSquare : polygon_signed_area unitSquare = 1 := by
  have h : cyclicEdges unitSquare
      = [(⟨0, 0⟩, ⟨1, 0⟩), (⟨1, 0⟩, ⟨1, 1⟩), (⟨1, 1⟩, ⟨0, 1⟩), (⟨0, 1⟩, ⟨0, 0⟩)] := by
    rfl
  rw [polygon_signed_area, cyclicSum, h]
  simp [cross2]

theorem sectionBBoxFold_preserve (pts : List Pt2) : ∀ st : SectionState,
    (sectionBBoxFold st pts).curves = st.curves
    ∧ (sectionBBoxFold st pts).regions = st.regions
    ∧ (sectionBBoxFold st pts).closedCount = st.closedCount
    ∧ (sectionBBoxFold st pts).num_hatch_lines = st.num_hatch_lines := by
  induction pts with
  | nil => intro st; simp [sectionBBoxFold]
  | cons q qs ih =>
      intro st
      simp only [sectionBBoxFold, List.foldl_cons] at *
      simpa using ih _

theorem processClosedWire_kept_curves (origin xAxis yAxis : Pt3) (ha hs : ℝ)
    (st : SectionState) (wire : List Pt3)
    (h : 3 ≤ (wire.map (project_point_to_plane origin xAxis yAxis)).length) :
    (processClosedWire origin xAxis yAxis ha hs st wire).curves
      = st.curves ++ [⟨true, wire.map (project_point_to_plane origin xAxis yAxis)⟩] := by
  unfold processClosedWire
  rw [if_pos h]
  simp [(sectionBBoxFold_preserve _ _).1]

theorem processClosedWire_kept_regions (origin xAxis yAxis : Pt3) (ha hs : ℝ)
    (st : SectionState) (wire : List Pt3)
    (h : 3 ≤ (wire.map (project_point_to_plane origin xAxis yAxis)).length) :
    (processClosedWire origin xAxis yAxis ha hs st wire).regions
      = st.regions ++ [⟨wire.map (project_point_to_plane origin xAxis yAxis),
          |polygon_signed_area (wire.map (project_point_to_plane origin xAxis yAxis))|,
          0 < polygon_signed_area (wire.map (project_point_to_plane origin xAxis yAxis)),
          generate_hatch_lines_for_region
            (wire.map (project_point_to_plane origin xAxis yAxis)) ha hs
            (sectionBBoxFold st (wire.map (project_point_to_plane origin xAxis yAxis))).min_x
            (sectionBBoxFold st (wire.map (project_point_to_plane origin xAxis yAxis))).min_y
            (sectionBBoxFold st (wire.map (project_point_to_plane origin xAxis yAxis))).max_x
            (sectionBBoxFold st (wire.map (project_point_to_plane origin xAxis yAxis))).max_y⟩] := by
  unfold processClosedWire
  rw [if_pos h]
  simp [(sectionBBoxFold_preserve _ _).2.1]

theorem processClosedWire_skip_curves (origin xAxis yAxis : Pt3) (ha hs : ℝ)
    (st : SectionState) (wire : List Pt3)
    (h : (wire.map (project_point_to_plane origin xAxis yAxis)).length < 3) :
    (processClosedWire origin xAxis yAxis ha hs st wire).curves = st.curves := by
  unfold processClosedWire
  rw [if_neg (by omega)]
  simp [(sectionBBoxFold_preserve _ _).1]

theorem processClosedWire_skip_regions (origin xAxis yAxis : Pt3) (ha hs : ℝ)
    (st : SectionState) (wire : List Pt3)
    (h : (wire.map (project_point_to_plane origin xAxis yAxis)).length < 3) :
    (processClosedWire origin xAxis yAxis ha hs st wire).regions = st.regions := by
  unfold processClosedWire
  rw [if_neg (by omega)]
  simp [(sectionBBoxFold_preserve _ _).2.1]

theorem processOpenWire_kept_curves (origin xAxis yAxis : Pt3)
    (st : SectionState) (wire : List Pt3)
    (h : 2 ≤ (wire.map (project_point_to_plane origin xAxis yAxis)).length) :
    (processOpenWire origin xAxis yAxis st wire).curves
      = st.curves ++ [⟨false, wire.map (project_point_to_plane origin xAxis yAxis)⟩] := by
  unfold processOpenWire
  rw [if_pos h]
  simp [(sectionBBoxFold_preserve _ _).1]

theorem processOpenWire_skip_curves (origin xAxis yAxis : Pt3)
    (st : SectionState) (wire : List Pt3)
    (h : (wire.map (project_point_to_plane origin xAxis yAxis)).length < 2) :
    (processOpenWire origin xAxis yAxis st wire).curves = st.curves := by
  unfold processOpenWire
  rw [if_neg (by omega)]
  simp [(sectionBBoxFold_preserve _ _).1]

theorem processOpenWire_regions (origin xAxis yAxis : Pt3)
    (st : SectionState) (wire : List Pt3) :
    (processOpenWire origin xAxis yAxis st wire).regions = st.regions := by
  unfold processOpenWire
  by_cases h : 2 ≤ (wire.map (project_point_to_plane origin xAxis yAxis)).length
  · rw [if_pos h]; simp [(sectionBBoxFold_preserve _ _).2.1]
  · rw [if_neg h]; simp [(sectionBBoxFold_preserve _ _).2.1]

theorem processClosedWire_closedCount (origin xAxis yAxis : Pt3) (ha hs : ℝ)
    (st : SectionState) (wire : List Pt3) :
    (processClosedWire origin xAxis yAxis ha hs st wire).closedCount
      = st.closedCount + 1 := by
  unfold processClosedWire
  by_cases h : 3 ≤ (wire.map (project_point_to_plane origin xAxis yAxis)).length
  · rw [if_pos h]; simp [(sectionBBoxFold_preserve _ _).2.2.1]
  · rw [if_neg h]; simp [(sectionBBoxFold_preserve _ _).2.2.1]

theorem processOpenWire_closedCount (origin xAxis yAxis : Pt3)
    (st : SectionState) (wire : List Pt3) :
    (processOpenWire origin xAxis yAxis st wire).closedCount = st.closedCount := by
  unfold processOpenWire
  by_cases h : 2 ≤ (wire.map (project_point_to_plane origin xAxis yAxis)).length
  · rw [if_pos h]; simp [(sectionBBoxFold_preserve _ _).2.2.1]
  · rw [if_neg h]; simp [(sectionBBoxFold_preserve _ _).2.2.1]

theorem foldl_closed_closedCount (origin xAxis yAxis : Pt3) (ha hs : ℝ)
    (ws : List (List Pt3)) : ∀ st : SectionState,
    (ws.foldl (processClosedWire origin xAxis yAxis ha hs) st).closedCount
      = st.closedCount + ws.length := by
  induction ws with
  | nil => intro st; simp
  | cons w rest ih =>
      intro st
      simp only [List.foldl_cons, List.length_cons]
      rw [ih _, processClosedWire_closedCount]
      omega

theorem foldl_open_closedCount (origin xAxis yAxis : Pt3)
    (ws : List (List Pt3)) : ∀ st : SectionState,
    (ws.foldl (processOpenWire origin xAxis yAxis) st).closedCount
      = st.closedCount := by
  induction ws with
  | nil => intro st; simp
  | cons w rest ih =>
      intro st
      simp only [List.foldl_cons]
      rw [ih _, processOpenWire_closedCount]

theorem sectionFinalize_regions (st : SectionState) :
    (sectionFinalize st).regions = st.regions := by
  unfold sectionFinalize; split <;> rfl

theorem sectionFinalize_num_regions (st : SectionState) :
    (sectionFinalize st).num_regions = st.closedCount := by
  unfold sectionFinalize; split <;> rfl

theorem foldl_open_regions (origin xAxis yAxis : Pt3) (ws : List (List Pt3)) :
    ∀ st : SectionState,
    (ws.foldl (processOpenWire origin xAxis yAxis) st).regions = st.regions := by
  induction ws with
  | nil => intro st; simp
  | cons w rest ih =>
      intro st
      simp only [List.foldl_cons]
      rw [ih _, processOpenWire_regions]

theorem compute_section_regions (cw ow : List (List Pt3)) (o xA yA : Pt3)
    (ha hs : ℝ) :
    (compute_section_with_hatch false false cw ow o xA yA ha hs).regions
      = (cw.foldl (processClosedWire o xA yA ha hs)
          ⟨[], [], dblMax, dblMax, dblLowest, dblLowest, 0, 0⟩).regions := by
  unfold compute_section_with_hatch
  rw [if_neg (by simp), if_neg (by simp), sectionFinalize_regions,
    foldl_open_regions]

/-- Claim C3: polygon_signed_area is invariant under cyclic rotation of the
point list and negates under reversal of the point order; on the unit square
(0,0),(1,0),(1,1),(0,1) it yields 1, so the region derived by
compute_section_with_hatch from the unit-square wire has area 1 and
is_outer true. -/
theorem signed_area_rotation_reversal_square :
    (∀ (l : List Pt2) (k : ℕ),
        polygon_signed_area (l.rotate k) = polygon_signed_area l)
    ∧ (∀ l : List Pt2, polygon_signed_area l.reverse = -polygon_signed_area l)
    ∧ polygon_signed_area unitSquare = 1
    ∧ (compute_section_with_hatch false false [unitSquareWire] []
        ⟨0, 0, 0⟩ ⟨1, 0, 0⟩ ⟨0, 1, 0⟩ 45 1).regions.map HatchRegion.area = [1]
    ∧ ∀ r ∈ (compute_section_with_hatch false false [unitSquareWire] []
        ⟨0, 0, 0⟩ ⟨1, 0, 0⟩ ⟨0, 1, 0⟩ 45 1).regions, r.is_outer := by
  have hproj : unitSquareWire.map
      (project_point_to_plane ⟨0, 0, 0⟩ ⟨1, 0, 0⟩ ⟨0, 1, 0⟩) = unitSquare := by
    simp [unitSquareWire, project_point_to_plane, unitSquare]
  have hlen : 3 ≤ (unitSquareWire.map
      (project_point_to_plane ⟨0, 0, 0⟩ ⟨1, 0, 0⟩ ⟨0, 1, 0⟩)).length := by
    rw [hproj]; simp [unitSquare]
  have hregions : (processClosedWire ⟨0, 0, 0⟩ ⟨1, 0, 0⟩ ⟨0, 1, 0⟩ 45 1
      ⟨[], [], dblMax, dblMax, dblLowest, dblLowest, 0, 0⟩ unitSquareWire).regions
      = [⟨unitSquare, |polygon_signed_area unitSquare|, 0 < polygon_signed_area unitSquare,
          generate_hatch_lines_for_region unitSquare 45 1
            (sectionBBoxFold ⟨[], [], dblMax, dblMax, dblLowest, dblLowest, 0, 0⟩ unitSquare).min_x
            (sectionBBoxFold ⟨[], [], dblMax, dblMax, dblLowest, dblLowest, 0, 0⟩ unitSquare).min_y
            (sectionBBoxFold ⟨[], [], dblMax, dblMax, dblLowest, dblLowest, 0, 0⟩ unitSquare).max_x
            (sectionBBoxFold ⟨[], [], dblMax, dblMax, dblLowest, dblLowest, 0, 0⟩ unitSquare).max_y⟩] := by
    rw [processClosedWire_kept_regions _ _ _ _ _ _ _ hlen, hproj]
    simp
  refine ⟨?_, ?_, psa_unitSquare, ?_, ?_⟩
  · intro l k
    unfold polygon_signed_area
    rw [cyclicSum_rotate]
  · intro l
    unfold polygon_signed_area
    rw [cyclicSum_reverse]
    ring
  · rw [compute_section_regions]
    simp only [List.foldl_cons, List.foldl_nil]
    rw [hregions]
    simp [psa_unitSquare]
  · intro r hr
    rw [compute_section_regions] at hr
    simp only [List.foldl_cons, List.foldl_nil] at hr
    rw [hregions] at hr
    simp at hr
    rw [hr]
    show 0 < polygon_signed_area unitSquare
    rw [psa_unitSquare]
    norm_num

/-- Claim C2: in compute_section_with_hatch, a closed wire with at least 3
projected points produces exactly one closed curve and exactly one region
whose area is the absolute shoelace signed area and whose is_outer flag
holds exactly when the signed area is positive; a closed wire with fewer
than 3 projected points produces no curve and no region; an open wire is
kept exactly when it has at least 2 projected points, with no hatching. -/
theorem section_wire_partition (origin xAxis yAxis : Pt3) (ha hs : ℝ)
    (st : SectionState) (wire : List Pt3) :
    (3 ≤ (wire.map (project_point_to_plane origin xAxis yAxis)).length →
      (processClosedWire origin xAxis yAxis ha hs st wire).curves
          = st.curves ++ [⟨true, wire.map (project_point_to_plane origin xAxis yAxis)⟩]
        ∧ (processClosedWire origin xAxis yAxis ha hs st wire).regions
          = st.regions ++ [⟨wire.map (project_point_to_plane origin xAxis yAxis),
              |polygon_signed_area (wire.map (project_point_to_plane origin xAxis yAxis))|,
              0 < polygon_signed_area (wire.map (project_point_to_plane origin xAxis yAxis)),
              generate_hatch_lines_for_region
                (wire.map (project_point_to_plane origin xAxis yAxis)) ha hs
                (sectionBBoxFold st (wire.map (project_point_to_plane origin xAxis yAxis))).min_x
                (sectionBBoxFold st (wire.map (project_point_to_plane origin xAxis yAxis))).min_y
                (sectionBBoxFold st (wire.map (project_point_to_plane origin xAxis yAxis))).max_x
                (sectionBBoxFold st (wire.map (project_point_to_plane origin xAxis yAxis))).max_y⟩])
    ∧ ((wire.map (project_point_to_plane origin xAxis yAxis)).length < 3 →
      (processClosedWire origin xAxis yAxis ha hs st wire).curves = st.curves
        ∧ (processClosedWire origin xAxis yAxis ha hs st wire).regions = st.regions)
    ∧ (2 ≤ (wire.map (project_point_to_plane origin xAxis yAxis)).length →
      (processOpenWire origin xAxis yAxis st wire).curves
          = st.curves ++ [⟨false, wire.map (project_point_to_plane origin xAxis yAxis)⟩]
        ∧ (processOpenWire origin xAxis yAxis st wire).regions = st.regions)
    ∧ ((wire.map (project_point_to_plane origin xAxis yAxis)).length < 2 →
      (processOpenWire origin xAxis yAxis st wire).curves = st.curves
        ∧ (processOpenWire origin xAxis yAxis st wire).regions = st.regions) := by
  refine ⟨fun h => ⟨?_, ?_⟩, fun h => ⟨?_, ?_⟩, fun h => ⟨?_, ?_⟩, fun h => ⟨?_, ?_⟩⟩
  · exact processClosedWire_kept_curves _ _ _ _ _ _ _ h
  · exact processClosedWire_kept_regions _ _ _ _ _ _ _ h
  · exact processClosedWire_skip_curves _ _ _ _ _ _ _ h
  · exact processClosedWire_skip_regions _ _ _ _ _ _ _ h
  · exact processOpenWire_kept_curves _ _ _ _ _ h
  · exact processOpenWire_regions _ _ _ _ _
  · exact processOpenWire_skip_curves _ _ _ _ _ h
  · exact processOpenWire_regions _ _ _ _ _

/-- Witness for claim C2 at the unit-square wire. -/
theorem section_wire_partition_witness :
    (processClosedWire ⟨0, 0, 0⟩ ⟨1, 0, 0⟩ ⟨0, 1, 0⟩ 0 1
        ⟨[], [], dblMax, dblMax, dblLowest, dblLowest, 0, 0⟩ unitSquareWire).curves
      = ([] : List SectionCurve) ++ [⟨true, unitSquareWire.map
          (project_point_to_plane ⟨0, 0, 0⟩ ⟨1, 0, 0⟩ ⟨0, 1, 0⟩)⟩] :=
  ((section_wire_partition ⟨0, 0, 0⟩ ⟨1, 0, 0⟩ ⟨0, 1, 0⟩ 0 1
      ⟨[], [], dblMax, dblMax, dblLowest, dblLowest, 0, 0⟩ unitSquareWire).1
    (by simp [unitSquareWire])).1

/-- Claim C9: compute_section_with_hatch reports num_regions equal to the
total number of closed wires, including closed wires whose projection had
fewer than 3 points and contributed no region, so num_regions can exceed
the length of the regions list, as the 2-vertex closed wire shows. -/
theorem section_num_regions_counts :
    (∀ (closedWires openWires : List (List Pt3)) (origin xAxis yAxis : Pt3)
        (ha hs : ℝ),
      (compute_section_with_hatch false false closedWires openWires
          origin xAxis yAxis ha hs).num_regions = closedWires.length)
    ∧ (compute_section_with_hatch false false [[⟨0, 0, 0⟩, ⟨1, 0, 0⟩]] []
        ⟨0, 0, 0⟩ ⟨1, 0, 0⟩ ⟨0, 1, 0⟩ 45 1).num_regions = 1
    ∧ (compute_section_with_hatch false false [[⟨0, 0, 0⟩, ⟨1, 0, 0⟩]] []
        ⟨0, 0, 0⟩ ⟨1, 0, 0⟩ ⟨0, 1, 0⟩ 45 1).regions.length = 0 := by
  have hnum : ∀ (closedWires openWires : List (List Pt3)) (origin xAxis yAxis : Pt3)
      (ha hs : ℝ),
      (compute_section_with_hatch false false closedWires openWires
          origin xAxis yAxis ha hs).num_regions = closedWires.length := by
    intro cw ow o xA yA ha hs
    unfold compute_section_with_hatch
    rw [if_neg (by simp), if_neg (by simp), sectionFinalize_num_regions,
      foldl_open_closedCount, foldl_closed_closedCount]
    simp
  refine ⟨hnum, hnum _ _ _ _ _ _ _, ?_⟩
  have hlen : (([⟨0, 0, 0⟩, ⟨1, 0, 0⟩] : List Pt3).map
      (project_point_to_plane ⟨0, 0, 0⟩ ⟨1, 0, 0⟩ ⟨0, 1, 0⟩)).length < 3 := by simp
  rw [compute_section_regions]
  simp only [List.foldl_cons, List.foldl_nil]
  rw [processClosedWire_skip_regions _ _ _ _ _ _ _ hlen]
  simp

/-- Claim C4: when the HLR extraction stage produced zero lines across all
six groups and the shape has a nonvoid 3D bounding box, the result of
compute_hlr_projection is exactly the 4 edges of the 3D bounding box
projected onto the plane chosen by the dominant component of the normalized
view direction (absolute y component above 0.9 gives XZ, then z gives XY,
then x gives YZ, else XY), each tagged with line type 4 (visible outline),
with scale applied once inside the fallback and not applied a second time
afterwards, and the bounding box assigned from the same scaled rectangle. -/
theorem hlr_fallback_rectangle (faces edges : ℕ) (dir_x dir_y dir_z scale : ℝ)
    (groups : HLRGroups) (bmin bmax : Pt3) (pxmin pymin pxmax pymax : ℝ)
    (hfe : ¬ (faces = 0 ∧ edges = 0))
    (hlen : ¬ (Real.sqrt (dir_x * dir_x + dir_y * dir_y + dir_z * dir_z) < 1e-10))
    (hext : (extractAllV1 groups ⟨[], dblMax, dblMax, dblLowest, dblLowest⟩).lines = [])
    (hp : (pxmin, pymin, pxmax, pymax)
        = bboxPlaneRect bmin bmax
            (dir_x / Real.sqrt (dir_x * dir_x + dir_y * dir_y + dir_z * dir_z))
            (dir_y / Real.sqrt (dir_x * dir_x + dir_y * dir_y + dir_z * dir_z))
            (dir_z / Real.sqrt (dir_x * dir_x + dir_y * dir_y + dir_z * dir_z))
            scale) :
    (∀ ndx ndy ndz : ℝ, bboxPlaneRect bmin bmax ndx ndy ndz scale
        = if |ndy| > 0.9 then
            (bmin.x * scale, bmin.z * scale, bmax.x * scale, bmax.z * scale)
          else if |ndz| > 0.9 then
            (bmin.x * scale, bmin.y * scale, bmax.x * scale, bmax.y * scale)
          else if |ndx| > 0.9 then
            (bmin.y * scale, bmin.z * scale, bmax.y * scale, bmax.z * scale)
          else (bmin.x * scale, bmin.y * scale, bmax.x * scale, bmax.y * scale))
    ∧ compute_hlr_projection false faces edges dir_x dir_y dir_z scale groups
        (some (bmin, bmax))
      = ⟨[⟨pxmin, pymin, pxmax, pymin, 4⟩, ⟨pxmax, pymin, pxmax, pymax, 4⟩,
          ⟨pxmax, pymax, pxmin, pymax, 4⟩, ⟨pxmin, pymax, pxmin, pymin, 4⟩],
          pxmin, pymin, pxmax, pymax⟩ := by
  constructor
  · intro ndx ndy ndz; rfl
  · unfold compute_hlr_projection
    rw [if_neg (by simp), if_neg hfe, if_neg hlen]
    simp only [hext, extract_bbox_edges, List.isEmpty_nil, List.nil_append,
      List.length_nil, lt_self_iff_false, and_false, if_false, if_true]
    rw [← hp]
    simp

/-- Witness for claim C4: unit view direction along z, box from (1,2,3) to
(4,5,6), scale 2, empty classifier output. -/
theorem hlr_fallback_rectangle_witness :
    compute_hlr_projection false 1 0 0 0 1 2 ⟨[], [], [], [], [], []⟩
        (some (⟨1, 2, 3⟩, ⟨4, 5, 6⟩))
      = ⟨[⟨2, 4, 8, 4, 4⟩, ⟨8, 4, 8, 10, 4⟩, ⟨8, 10, 2, 10, 4⟩, ⟨2, 10, 2, 4, 4⟩],
          2, 4, 8, 10⟩ := by
  have hsq : Real.sqrt ((0:ℝ) * 0 + 0 * 0 + 1 * 1) = 1 := by
    rw [show (0:ℝ) * 0 + 0 * 0 + 1 * 1 = 1 by ring, Real.sqrt_one]
  have hext : (extractAllV1 ⟨[], [], [], [], [], []⟩
      ⟨[], dblMax, dblMax, dblLowest, dblLowest⟩).lines = [] := by
    simp [extractAllV1, extract_2d_edges]
  have h := hlr_fallback_rectangle 1 0 0 0 1 2 ⟨[], [], [], [], [], []⟩
    ⟨1, 2, 3⟩ ⟨4, 5, 6⟩ 2 4 8 10 (by norm_num) (by rw [hsq]; norm_num) hext
    (by rw [hsq]; norm_num [bboxPlaneRect])
  exact h.2

/-- Claim C6 (amended): every modelled invalid input (null shape; zero
faces and zero edges in v1; view direction shorter than 1e-10; failed
section) makes the entry point return an empty result, but carrying the
sentinel bounding box (min components dblMax, max components dblLowest)
rather than the zeroed one the claim states; the embedded entry points are
total functions, so no exception escapes. -/
theorem invalid_input_short_circuit :
    (∀ (faces edges : ℕ) (dx dy dz scale : ℝ) (groups : HLRGroups)
        (bbox3 : Option (Pt3 × Pt3)),
        compute_hlr_projection true faces edges dx dy dz scale groups bbox3
          = ⟨[], dblMax, dblMax, dblLowest, dblLowest⟩)
    ∧ (∀ (dx dy dz scale : ℝ) (groups : HLRGroups) (bbox3 : Option (Pt3 × Pt3)),
        compute_hlr_projection false 0 0 dx dy dz scale groups bbox3
          = ⟨[], dblMax, dblMax, dblLowest, dblLowest⟩)
    ∧ (∀ (faces edges : ℕ) (dx dy dz scale : ℝ) (groups : HLRGroups)
        (bbox3 : Option (Pt3 × Pt3)),
        Real.sqrt (dx * dx + dy * dy + dz * dz) < 1e-10 →
        compute_hlr_projection false faces edges dx dy dz scale groups bbox3
          = ⟨[], dblMax, dblMax, dblLowest, dblLowest⟩)
    ∧ (∀ (dx dy dz scale defl : ℝ) (groups : HLRGroupsV2),
        compute_hlr_projection_v2 true dx dy dz scale defl groups
          = ⟨[], [], dblMax, dblMax, dblLowest, dblLowest, 0, 0, 0, 0⟩)
    ∧ (∀ (dx dy dz scale defl : ℝ) (groups : HLRGroupsV2),
        Real.sqrt (dx * dx + dy * dy + dz * dz) < 1e-10 →
        compute_hlr_projection_v2 false dx dy dz scale defl groups
          = ⟨[], [], dblMax, dblMax, dblLowest, dblLowest, 0, 0, 0, 0⟩)
    ∧ (∀ (sf : Bool) (cw ow : List (List Pt3)) (o xA yA : Pt3) (ha hs : ℝ),
        compute_section_with_hatch true sf cw ow o xA yA ha hs
          = initSectionResult)
    ∧ (∀ (cw ow : List (List Pt3)) (o xA yA : Pt3) (ha hs : ℝ),
        compute_section_with_hatch false true cw ow o xA yA ha hs
          = initSectionResult) := by
  refine ⟨?_, ?_, ?_, ?_, ?_, ?_, ?_⟩
  · intro faces edges dx dy dz scale groups bbox3
    simp [compute_hlr_projection]
  · intro dx dy dz scale groups bbox3
    simp [compute_hlr_projection]
  · intro faces edges dx dy dz scale groups bbox3 h
    unfold compute_hlr_projection
    rw [if_neg (by simp)]
    by_cases hfe : faces = 0 ∧ edges = 0
    · rw [if_pos hfe]
    · rw [if_neg hfe, if_pos h]
  · intro dx dy dz scale defl groups
    simp [compute_hlr_projection_v2]
  · intro dx dy dz scale defl groups h
    unfold compute_hlr_projection_v2
    rw [if_neg (by simp), if_pos h]
  · intro sf cw ow o xA yA ha hs
    simp [compute_section_with_hatch]
  · intro cw ow o xA yA ha hs
    simp [compute_section_with_hatch]

/-- Witness for claim C6 (amended) at concrete invalid inputs. -/
theorem invalid_input_short_circuit_witness :
    compute_hlr_projection false 3 2 0 0 0 1 ⟨[], [], [], [], [], []⟩ none
      = ⟨[], dblMax, dblMax, dblLowest, dblLowest⟩
    ∧ compute_section_with_hatch true false [] [] ⟨0, 0, 0⟩ ⟨1, 0, 0⟩ ⟨0, 1, 0⟩ 45 1
      = initSectionResult := by
  constructor
  · exact invalid_input_short_circuit.2.2.1 3 2 0 0 0 1 ⟨[], [], [], [], [], []⟩ none
      (by rw [show (0:ℝ) * 0 + 0 * 0 + 0 * 0 = 0 by ring, Real.sqrt_zero]; norm_num)
  · exact invalid_input_short_circuit.2.2.2.2.2.1 false [] [] ⟨0, 0, 0⟩ ⟨1, 0, 0⟩
      ⟨0, 1, 0⟩ 45 1

/-- Counterexample to claim C6 as stated: a null shape makes the v1 entry
point return min_x equal to the largest double, not a zeroed bounding box. -/
theorem invalid_input_not_zeroed :
    (compute_hlr_projection true 0 0 0 0 1 1 ⟨[], [], [], [], [], []⟩ none).min_x
      = dblMax ∧ dblMax ≠ 0 := by
  constructor
  · simp [compute_hlr_projection]
  · norm_num [dblMax]

/-- Claim C10: compute_hlr_projection_v2 never emits the bounding-box
rectangle: with a valid shape and view direction but an empty classifier
result it returns empty curve and polyline lists with the zero bounding
box, for every scale; and the zero-faces-and-zero-edges rejection exists
only in compute_hlr_projection, which returns the empty sentinel result
for every classifier output when both counts are zero. -/
theorem v2_no_bbox_fallback (dx dy dz scale defl : ℝ)
    (hlen : ¬ (Real.sqrt (dx * dx + dy * dy + dz * dz) < 1e-10)) :
    compute_hlr_projection_v2 false dx dy dz scale defl ⟨[], [], [], [], [], []⟩
      = ⟨[], [], 0, 0, 0, 0, 0, 0, 0, 0⟩
    ∧ (∀ (dx2 dy2 dz2 scale2 : ℝ) (groups : HLRGroups)
        (bbox3 : Option (Pt3 × Pt3)),
        compute_hlr_projection false 0 0 dx2 dy2 dz2 scale2 groups bbox3
          = ⟨[], dblMax, dblMax, dblLowest, dblLowest⟩) := by
  constructor
  · unfold compute_hlr_projection_v2
    rw [if_neg (by simp), if_neg hlen]
    by_cases hs : scale ≠ 1 <;>
      simp [hs, extractAllV2, extract_2d_curves, scaleV2, v2Finalize]
  · intro dx2 dy2 dz2 scale2 groups bbox3
    simp [compute_hlr_projection]

/-- Witness for claim C10 at a unit view direction along z and scale 7. -/
theorem v2_no_bbox_fallback_witness :
    compute_hlr_projection_v2 false 0 0 1 7 0.01 ⟨[], [], [], [], [], []⟩
      = ⟨[], [], 0, 0, 0, 0, 0, 0, 0, 0⟩ :=
  (v2_no_bbox_fallback 0 0 1 7 0.01
    (by rw [show (0:ℝ) * 0 + 0 * 0 + 1 * 1 = 1 by ring, Real.sqrt_one]; norm_num)).1

/-- Claim C8: an edge classified as a straight line whose two endpoint
evaluations are less than 1e-7 apart is dropped by both extraction passes
and emits no line primitive: the extraction state is returned unchanged
(v1 measures the 2D distance of the projected endpoints, v2 the 3D one). -/
theorem degenerate_line_dropped :
    (∀ (lt : ℕ) (st : V1State) (sp ep : Pt3),
        Real.sqrt ((ep.x - sp.x) ^ 2 + (ep.y - sp.y) ^ 2) < 1e-7 →
        extract_2d_edges_step lt st (some (sp, ep)) = st)
    ∧ (∀ (lt : ℕ) (st : V2State) (e : EdgeV2),
        e.kind = CurveKind.line → dist3 e.startP e.endP < 1e-7 →
        extract_2d_curves_step lt st e = st) := by
  constructor
  · intro lt st sp ep h
    simp [extract_2d_edges_step, le_of_lt h]
  · intro lt st e hk h
    rcases Bool.eq_false_or_eq_true e.has_curve with hc | hc
    · simp only [extract_2d_curves_step]
      rw [if_neg (by simp [hc]), if_pos ⟨le_of_lt h, hk⟩]
    · simp [extract_2d_curves_step, hc]

/-- Witness for claim C8 at coincident endpoints. -/
theorem degenerate_line_dropped_witness :
    extract_2d_edges_step 0 ⟨[], dblMax, dblMax, dblLowest, dblLowest⟩
        (some (⟨0, 0, 0⟩, ⟨0, 0, 0⟩)) = ⟨[], dblMax, dblMax, dblLowest, dblLowest⟩
    ∧ extract_2d_curves_step 0
        ⟨[], [], dblMax, dblMax, dblLowest, dblLowest, 0, 0, 0, 0⟩ degenEdge
      = ⟨[], [], dblMax, dblMax, dblLowest, dblLowest, 0, 0, 0, 0⟩ := by
  constructor
  · refine degenerate_line_dropped.1 0 _ ⟨0, 0, 0⟩ ⟨0, 0, 0⟩ ?_
    rw [show ((⟨0, 0, 0⟩ : Pt3).x - (⟨0, 0, 0⟩ : Pt3).x) ^ 2
        + ((⟨0, 0, 0⟩ : Pt3).y - (⟨0, 0, 0⟩ : Pt3).y) ^ 2 = 0 by norm_num,
      Real.sqrt_zero]
    norm_num
  · refine degenerate_line_dropped.2 0 _ degenEdge rfl ?_
    unfold dist3 degenEdge
    rw [show ((⟨0, 0, 0⟩ : Pt3).x - (⟨0, 0, 0⟩ : Pt3).x) ^ 2
        + ((⟨0, 0, 0⟩ : Pt3).y - (⟨0, 0, 0⟩ : Pt3).y) ^ 2
        + ((⟨0, 0, 0⟩ : Pt3).z - (⟨0, 0, 0⟩ : Pt3).z) ^ 2 = 0 by norm_num,
      Real.sqrt_zero]
    norm_num

/-- Claim C7 (amended): in generate_hatch_lines_for_region the candidate
count is num_lines = floor(diag/spacing) + 2 (the static_cast truncation of
the source, not the ceiling the claim states), and candidate hatch lines
are generated at offsets i * spacing for exactly the integers i from
-num_lines to num_lines inclusive. -/
theorem hatch_candidate_lines (boundary : List Pt2)
    (angle_deg spacing min_x min_y max_x max_y : ℝ)
    (h3 : 3 ≤ boundary.length) (hsp : 0 < spacing) :
    hatch_num_lines spacing min_x min_y max_x max_y
      = ⌊Real.sqrt ((max_x - min_x) ^ 2 + (max_y - min_y) ^ 2) / spacing⌋ + 2
    ∧ (∀ j : ℤ,
        j ∈ hatchIndices (hatch_num_lines spacing min_x min_y max_x max_y)
        ↔ -(hatch_num_lines spacing min_x min_y max_x max_y) ≤ j
          ∧ j ≤ hatch_num_lines spacing min_x min_y max_x max_y)
    ∧ generate_hatch_lines_for_region boundary angle_deg spacing
        min_x min_y max_x max_y
      = (hatchIndices (hatch_num_lines spacing min_x min_y max_x max_y)).flatMap
          (fun i => hatchSegmentsAtOffset boundary
            (Real.cos (angle_deg * Real.pi / 180))
            (Real.sin (angle_deg * Real.pi / 180))
            ((min_x + max_x) / 2) ((min_y + max_y) / 2) ((i : ℝ) * spacing)) := by
  have hN : 0 ≤ hatch_num_lines spacing min_x min_y max_x max_y := by
    unfold hatch_num_lines
    have h0 : 0 ≤ ⌊Real.sqrt ((max_x - min_x) ^ 2 + (max_y - min_y) ^ 2) / spacing⌋ :=
      Int.floor_nonneg.mpr (div_nonneg (Real.sqrt_nonneg _) (le_of_lt hsp))
    omega
  refine ⟨rfl, ?_, ?_⟩
  · intro j
    obtain ⟨n, hn⟩ : ∃ n : ℕ,
        hatch_num_lines spacing min_x min_y max_x max_y = (n : ℤ) :=
      ⟨(hatch_num_lines spacing min_x min_y max_x max_y).toNat,
        (Int.toNat_of_nonneg hN).symm⟩
    rw [hn]
    unfold hatchIndices
    constructor
    · intro hj
      obtain ⟨k, hk, he⟩ := List.mem_map.mp hj
      have hk2 : k < (2 * (n : ℤ) + 1).toNat := List.mem_range.mp hk
      constructor <;> omega
    · rintro ⟨h1, h2⟩
      refine List.mem_map.mpr ⟨(j + n).toNat, List.mem_range.mpr ?_, ?_⟩ <;> omega
  · unfold generate_hatch_lines_for_region
    rw [if_neg (by push_neg; exact ⟨by omega, hsp⟩)]

/-- Witness for claim C7 (amended) on the unit square. -/
theorem hatch_candidate_lines_witness :
    generate_hatch_lines_for_region unitSquare 0 1 0 0 1 1
      = (hatchIndices (hatch_num_lines 1 0 0 1 1)).flatMap
          (fun i => hatchSegmentsAtOffset unitSquare
            (Real.cos (0 * Real.pi / 180)) (Real.sin (0 * Real.pi / 180))
            ((0 + 1) / 2) ((0 + 1) / 2) ((i : ℝ) * 1)) :=
  (hatch_candidate_lines unitSquare 0 1 0 0 1 1
    (by simp [unitSquare]) (by norm_num)).2.2

/-- Counterexample to claim C7 as stated: with the bounding rectangle
(0,0) to (3,4) the diagonal is 5, and with spacing 2 the code computes
trunc(5/2) + 2 = 4 candidate lines per side, not ceil(5/2) + 2 = 5. -/
theorem hatch_candidate_count_not_ceil :
    hatch_num_lines 2 0 0 3 4 = 4
    ∧ ⌈Real.sqrt (((3:ℝ) - 0) ^ 2 + ((4:ℝ) - 0) ^ 2) / 2⌉ + 2 = 5
    ∧ hatch_num_lines 2 0 0 3 4
      ≠ ⌈Real.sqrt (((3:ℝ) - 0) ^ 2 + ((4:ℝ) - 0) ^ 2) / 2⌉ + 2 := by
  have hsq : Real.sqrt (((3:ℝ) - 0) ^ 2 + ((4:ℝ) - 0) ^ 2) = 5 := by
    rw [show ((3:ℝ) - 0) ^ 2 + ((4:ℝ) - 0) ^ 2 = 5 ^ 2 by norm_num]
    exact Real.sqrt_sq (by norm_num)
  have hfl : ⌊Real.sqrt (((3:ℝ) - 0) ^ 2 + ((4:ℝ) - 0) ^ 2) / 2⌋ = 2 := by
    rw [hsq, Int.floor_eq_iff]
    constructor <;> norm_num
  have hcl : ⌈Real.sqrt (((3:ℝ) - 0) ^ 2 + ((4:ℝ) - 0) ^ 2) / 2⌉ = 3 := by
    rw [hsq, Int.ceil_eq_iff]
    constructor <;> norm_num
  refine ⟨?_, ?_, ?_⟩
  · unfold hatch_num_lines
    rw [hfl]
    norm_num
  · rw [hcl]
    norm_num
  · unfold hatch_num_lines
    rw [hfl, hcl]
    norm_num

theorem foldl_min_le_init (l : List ℝ) : ∀ a : ℝ, l.foldl min a ≤ a := by
  induction l with
  | nil => intro a; simp
  | cons x xs ih =>
      intro a
      simp only [List.foldl_cons]
      exact le_trans (ih _) (min_le_left a x)

theorem foldl_min_le_mem (l : List ℝ) : ∀ (a x : ℝ), x ∈ l → l.foldl min a ≤ x := by
  induction l with
  | nil => intro a x hx; simp at hx
  | cons y ys ih =>
      intro a x hx
      simp only [List.foldl_cons]
      rcases List.mem_cons.mp hx with rfl | hx2
      · exact le_trans (foldl_min_le_init ys (min a x)) (min_le_right a x)
      · exact ih _ x hx2

theorem foldl_min_mem_or (l : List ℝ) : ∀ a : ℝ, l.foldl min a ∈ l ∨ l.foldl min a = a := by
  induction l with
  | nil => intro a; right; rfl
  | cons x xs ih =>
      intro a
      simp only [List.foldl_cons]
      rcases ih (min a x) with h | h
      · exact Or.inl (List.mem_cons_of_mem _ h)
      · rcases min_choice a x with h2 | h2
        · right; rw [h, h2]
        · left; rw [h, h2]; exact List.mem_cons_self x xs

theorem foldl_min_mem (l : List ℝ) (a : ℝ) (hne : l ≠ []) (hb : ∀ x ∈ l, x ≤ a) :
    l.foldl min a ∈ l := by
  rcases foldl_min_mem_or l a with h | h
  · exact h
  · obtain ⟨x, hx⟩ := List.exists_mem_of_ne_nil l hne
    have h1 := foldl_min_le_mem l a x hx
    have h3 : l.foldl min a = x := le_antisymm h1 (by rw [h]; exact hb x hx)
    rw [h3]; exact hx

theorem foldl_max_ge_init (l : List ℝ) : ∀ a : ℝ, a ≤ l.foldl max a := by
  induction l with
  | nil => intro a; simp
  | cons x xs ih =>
      intro a
      simp only [List.foldl_cons]
      exact le_trans (le_max_left a x) (ih _)

theorem foldl_max_ge_mem (l : List ℝ) : ∀ (a x : ℝ), x ∈ l → x ≤ l.foldl max a := by
  induction l with
  | nil => intro a x hx; simp at hx
  | cons y ys ih =>
      intro a x hx
      simp only [List.foldl_cons]
      rcases List.mem_cons.mp hx with rfl | hx2
      · exact le_trans (le_max_right a x) (foldl_max_ge_init ys (max a x))
      · exact ih _ x hx2

theorem foldl_max_mem_or (l : List ℝ) : ∀ a : ℝ, l.foldl max a ∈ l ∨ l.foldl max a = a := by
  induction l with
  | nil => intro a; right; rfl
  | cons x xs ih =>
      intro a
      simp only [List.foldl_cons]
      rcases ih (max a x) with h | h
      · exact Or.inl (List.mem_cons_of_mem _ h)
      · rcases max_choice a x with h2 | h2
        · right; rw [h, h2]
        · left; rw [h, h2]; exact List.mem_cons_self x xs

theorem foldl_max_mem (l : List ℝ) (a : ℝ) (hne : l ≠ []) (hb : ∀ x ∈ l, a ≤ x) :
    l.foldl max a ∈ l := by
  rcases foldl_max_mem_or l a with h | h
  · exact h
  · obtain ⟨x, hx⟩ := List.exists_mem_of_ne_nil l hne
    have h1 := foldl_max_ge_mem l a x hx
    have h3 : l.foldl max a = x := le_antisymm (by rw [h]; exact hb x hx) h1
    rw [h3]; exact hx

theorem v2PointFold_min_x (pts : List Pt2) : ∀ st : V2State,
    (v2PointFold st pts).min_x = (pts.map Pt2.x).foldl min st.min_x := by
  induction pts with
  | nil => intro st; rfl
  | cons q qs ih =>
      intro st
      simp only [v2PointFold, List.foldl_cons, List.map_cons] at *
      exact ih _

theorem v2PointFold_min_y (pts : List Pt2) : ∀ st : V2State,
    (v2PointFold st pts).min_y = (pts.map Pt2.y).foldl min st.min_y := by
  induction pts with
  | nil => intro st; rfl
  | cons q qs ih =>
      intro st
      simp only [v2PointFold, List.foldl_cons, List.map_cons] at *
      exact ih _

theorem v2PointFold_max_x (pts : List Pt2) : ∀ st : V2State,
    (v2PointFold st pts).max_x = (pts.map Pt2.x).foldl max st.max_x := by
  induction pts with
  | nil => intro st; rfl
  | cons q qs ih =>
      intro st
      simp only [v2PointFold, List.foldl_cons, List.map_cons] at *
      exact ih _

theorem v2PointFold_max_y (pts : List Pt2) : ∀ st : V2State,
    (v2PointFold st pts).max_y = (pts.map Pt2.y).foldl max st.max_y := by
  induction pts with
  | nil => intro st; rfl
  | cons q qs ih =>
      intro st
      simp only [v2PointFold, List.foldl_cons, List.map_cons] at *
      exact ih _

theorem extract_2d_curves_step_bbox (lt : ℕ) (st : V2State) (e : EdgeV2) :
    (extract_2d_curves_step lt st e).min_x = (edgeMinXs e).foldl min st.min_x
    ∧ (extract_2d_curves_step lt st e).min_y = (edgeMinYs e).foldl min st.min_y
    ∧ (extract_2d_curves_step lt st e).max_x = (edgeMaxXs e).foldl max st.max_x
    ∧ (extract_2d_curves_step lt st e).max_y = (edgeMaxYs e).foldl max st.max_y := by
  rcases Bool.eq_false_or_eq_true e.has_curve with hc | hc
  · by_cases hskip : dist3 e.startP e.endP ≤ 1e-7 ∧ e.kind = CurveKind.line
    · refine ⟨?_, ?_, ?_, ?_⟩ <;>
        simp [extract_2d_curves_step, edgeMinXs, edgeMinYs, edgeMaxXs,
          edgeMaxYs, hc, hskip]
    · cases hkind : e.kind with
      | line =>
          have hd : ¬ dist3 e.startP e.endP ≤ 1e-7 := fun h => hskip ⟨h, hkind⟩
          refine ⟨?_, ?_, ?_, ?_⟩ <;>
            simp [extract_2d_curves_step, edgeMinXs, edgeMinYs, edgeMaxXs,
              edgeMaxYs, hc, hd, hkind]
      | circle =>
          refine ⟨?_, ?_, ?_, ?_⟩ <;>
            simp [extract_2d_curves_step, edgeMinXs, edgeMinYs, edgeMaxXs,
              edgeMaxYs, hc, hskip, hkind]
      | ellipse =>
          refine ⟨?_, ?_, ?_, ?_⟩ <;>
            simp [extract_2d_curves_step, edgeMinXs, edgeMinYs, edgeMaxXs,
              edgeMaxYs, hc, hskip, hkind]
      | other =>
          by_cases ht : 2 ≤ e.tess.length
          · refine ⟨?_, ?_, ?_, ?_⟩ <;>
              simp [extract_2d_curves_step, edgeMinXs, edgeMinYs, edgeMaxXs,
                edgeMaxYs, hc, hskip, hkind, ht, v2PointFold_min_x,
                v2PointFold_min_y, v2PointFold_max_x, v2PointFold_max_y,
                List.foldl_append]
          · refine ⟨?_, ?_, ?_, ?_⟩ <;>
              simp [extract_2d_curves_step, edgeMinXs, edgeMinYs, edgeMaxXs,
                edgeMaxYs, hc, hskip, hkind, ht]
  · refine ⟨?_, ?_, ?_, ?_⟩ <;>
      simp [extract_2d_curves_step, edgeMinXs, edgeMinYs, edgeMaxXs,
        edgeMaxYs, hc]

theorem extract_2d_curves_step_min_x (lt : ℕ) (st : V2State) (e : EdgeV2) :
    (extract_2d_curves_step lt st e).min_x = (edgeMinXs e).foldl min st.min_x :=
  (extract_2d_curves_step_bbox lt st e).1

theorem extract_2d_curves_step_min_y (lt : ℕ) (st : V2State) (e : EdgeV2) :
    (extract_2d_curves_step lt st e).min_y = (edgeMinYs e).foldl min st.min_y :=
  (extract_2d_curves_step_bbox lt st e).2.1

theorem extract_2d_curves_step_max_x (lt : ℕ) (st : V2State) (e : EdgeV2) :
    (extract_2d_curves_step lt st e).max_x = (edgeMaxXs e).foldl max st.max_x :=
  (extract_2d_curves_step_bbox lt st e).2.2.1

theorem extract_2d_curves_step_max_y (lt : ℕ) (st : V2State) (e : EdgeV2) :
    (extract_2d_curves_step lt st e).max_y = (edgeMaxYs e).foldl max st.max_y :=
  (extract_2d_curves_step_bbox lt st e).2.2.2

theorem extract_2d_curves_min_x (lt : ℕ) (edges : List EdgeV2) : ∀ st : V2State,
    (extract_2d_curves lt st edges).min_x
      = (edges.flatMap edgeMinXs).foldl min st.min_x := by
  induction edges with
  | nil => intro st; rfl
  | cons e es ih =>
      intro st
      simp only [extract_2d_curves, List.foldl_cons, List.flatMap_cons,
        List.foldl_append] at *
      rw [ih (extract_2d_curves_step lt st e), extract_2d_curves_step_min_x]

theorem extract_2d_curves_min_y (lt : ℕ) (edges : List EdgeV2) : ∀ st : V2State,
    (extract_2d_curves lt st edges).min_y
      = (edges.flatMap edgeMinYs).foldl min st.min_y := by
  induction edges with
  | nil => intro st; rfl
  | cons e es ih =>
      intro st
      simp only [extract_2d_curves, List.foldl_cons, List.flatMap_cons,
        List.foldl_append] at *
      rw [ih (extract_2d_curves_step lt st e), extract_2d_curves_step_min_y]

theorem extract_2d_curves_max_x (lt : ℕ) (edges : List EdgeV2) : ∀ st : V2State,
    (extract_2d_curves lt st edges).max_x
      = (edges.flatMap edgeMaxXs).foldl max st.max_x := by
  induction edges with
  | nil => intro st; rfl
  | cons e es ih =>
      intro st
      simp only [extract_2d_curves, List.foldl_cons, List.flatMap_cons,
        List.foldl_append] at *
      rw [ih (extract_2d_curves_step lt st e), extract_2d_curves_step_max_x]

theorem extract_2d_curves_max_y (lt : ℕ) (edges : List EdgeV2) : ∀ st : V2State,
    (extract_2d_curves lt st edges).max_y
      = (edges.flatMap edgeMaxYs).foldl max st.max_y := by
  induction edges with
  | nil => intro st; rfl
  | cons e es ih =>
      intro st
      simp only [extract_2d_curves, List.foldl_cons, List.flatMap_cons,
        List.foldl_append] at *
      rw [ih (extract_2d_curves_step lt st e), extract_2d_curves_step_max_y]

theorem extractAllV2_bbox (g : HLRGroupsV2) (st : V2State) :
    (extractAllV2 g st).min_x = (v2Collected edgeMinXs g).foldl min st.min_x
    ∧ (extractAllV2 g st).min_y = (v2Collected edgeMinYs g).foldl min st.min_y
    ∧ (extractAllV2 g st).max_x = (v2Collected edgeMaxXs g).foldl max st.max_x
    ∧ (extractAllV2 g st).max_y = (v2Collected edgeMaxYs g).foldl max st.max_y := by
  refine ⟨?_, ?_, ?_, ?_⟩ <;>
    simp only [extractAllV2, v2Collected, extract_2d_curves_min_x,
      extract_2d_curves_min_y, extract_2d_curves_max_x,
      extract_2d_curves_max_y, List.foldl_append]

/-- Claim C5 (amended): with a valid shape and view direction and a
nonnegative scale, the bounding box returned by compute_hlr_projection_v2
is the componentwise min and max over the scaled collected coordinates:
the endpoint evaluations of every non-skipped edge (including edges of
other curve type whose tessellation produced fewer than 2 points and thus
emitted no primitive), circle extents center plus or minus radius, ellipse
extents center plus or minus major radius, and the kept tessellation
points; and whenever no primitive at all was emitted the bounding box is
the zero rectangle. -/
theorem v2_bbox_minmax (dx dy dz scale defl : ℝ) (groups : HLRGroupsV2)
    (r : HLRProjectionResultV2)
    (hr : r = compute_hlr_projection_v2 false dx dy dz scale defl groups)
    (hlen : ¬ (Real.sqrt (dx * dx + dy * dy + dz * dz) < 1e-10))
    (hscale : 0 ≤ scale)
    (hxne : v2Collected edgeMinXs groups ≠ [])
    (hyne : v2Collected edgeMinYs groups ≠ [])
    (hxne2 : v2Collected edgeMaxXs groups ≠ [])
    (hyne2 : v2Collected edgeMaxYs groups ≠ [])
    (hbx : ∀ x ∈ v2Collected edgeMinXs groups, x ≤ dblMax)
    (hby : ∀ x ∈ v2Collected edgeMinYs groups, x ≤ dblMax)
    (hbx2 : ∀ x ∈ v2Collected edgeMaxXs groups, dblLowest ≤ x)
    (hby2 : ∀ x ∈ v2Collected edgeMaxYs groups, dblLowest ≤ x) :
    (r.curves = [] ∧ r.polylines = [] →
      r.min_x = 0 ∧ r.min_y = 0 ∧ r.max_x = 0 ∧ r.max_y = 0)
    ∧ (r.curves ≠ [] ∨ r.polylines ≠ [] →
      (r.min_x ∈ (v2Collected edgeMinXs groups).map (fun v => v * scale)
        ∧ ∀ v ∈ (v2Collected edgeMinXs groups).map (fun v => v * scale),
            r.min_x ≤ v)
      ∧ (r.min_y ∈ (v2Collected edgeMinYs groups).map (fun v => v * scale)
        ∧ ∀ v ∈ (v2Collected edgeMinYs groups).map (fun v => v * scale),
            r.min_y ≤ v)
      ∧ (r.max_x ∈ (v2Collected edgeMaxXs groups).map (fun v => v * scale)
        ∧ ∀ v ∈ (v2Collected edgeMaxXs groups).map (fun v => v * scale),
            v ≤ r.max_x)
      ∧ (r.max_y ∈ (v2Collected edgeMaxYs groups).map (fun v => v * scale)
        ∧ ∀ v ∈ (v2Collected edgeMaxYs groups).map (fun v => v * scale),
            v ≤ r.max_y)) := by
  have hr2 : r = v2Finalize (if scale ≠ 1 then
      scaleV2 scale (extractAllV2 groups
        ⟨[], [], dblMax, dblMax, dblLowest, dblLowest, 0, 0, 0, 0⟩)
    else extractAllV2 groups
      ⟨[], [], dblMax, dblMax, dblLowest, dblLowest, 0, 0, 0, 0⟩) := by
    rw [hr]
    unfold compute_hlr_projection_v2
    rw [if_neg (by simp), if_neg hlen]
  have hbb := extractAllV2_bbox groups
    ⟨[], [], dblMax, dblMax, dblLowest, dblLowest, 0, 0, 0, 0⟩
  have h2min : (if scale ≠ 1 then
      scaleV2 scale (extractAllV2 groups
        ⟨[], [], dblMax, dblMax, dblLowest, dblLowest, 0, 0, 0, 0⟩)
    else extractAllV2 groups
      ⟨[], [], dblMax, dblMax, dblLowest, dblLowest, 0, 0, 0, 0⟩).min_x
      = ((v2Collected edgeMinXs groups).foldl min dblMax) * scale := by
    by_cases hs1 : scale ≠ 1
    · rw [if_pos hs1]
      show (extractAllV2 groups _).min_x * scale = _
      rw [hbb.1]
    · rw [if_neg hs1]
      push_neg at hs1
      rw [hbb.1, hs1, mul_one]
  have h2miny : (if scale ≠ 1 then
      scaleV2 scale (extractAllV2 groups
        ⟨[], [], dblMax, dblMax, dblLowest, dblLowest, 0, 0, 0, 0⟩)
    else extractAllV2 groups
      ⟨[], [], dblMax, dblMax, dblLowest, dblLowest, 0, 0, 0, 0⟩).min_y
      = ((v2Collected edgeMinYs groups).foldl min dblMax) * scale := by
    by_cases hs1 : scale ≠ 1
    · rw [if_pos hs1]
      show (extractAllV2 groups _).min_y * scale = _
      rw [hbb.2.1]
    · rw [if_neg hs1]
      push_neg at hs1
      rw [hbb.2.1, hs1, mul_one]
  have h2maxx : (if scale ≠ 1 then
      scaleV2 scale (extractAllV2 groups
        ⟨[], [], dblMax, dblMax, dblLowest, dblLowest, 0, 0, 0, 0⟩)
    else extractAllV2 groups
      ⟨[], [], dblMax, dblMax, dblLowest, dblLowest, 0, 0, 0, 0⟩).max_x
      = ((v2Collected edgeMaxXs groups).foldl max dblLowest) * scale := by
    by_cases hs1 : scale ≠ 1
    · rw [if_pos hs1]
      show (extractAllV2 groups _).max_x * scale = _
      rw [hbb.2.2.1]
    · rw [if_neg hs1]
      push_neg at hs1
      rw [hbb.2.2.1, hs1, mul_one]
  have h2maxy : (if scale ≠ 1 then
      scaleV2 scale (extractAllV2 groups
        ⟨[], [], dblMax, dblMax, dblLowest, dblLowest, 0, 0, 0, 0⟩)
    else extractAllV2 groups
      ⟨[], [], dblMax, dblMax, dblLowest, dblLowest, 0, 0, 0, 0⟩).max_y
      = ((v2Collected edgeMaxYs groups).foldl max dblLowest) * scale := by
    by_cases hs1 : scale ≠ 1
    · rw [if_pos hs1]
      show (extractAllV2 groups _).max_y * scale = _
      rw [hbb.2.2.2]
    · rw [if_neg hs1]
      push_neg at hs1
      rw [hbb.2.2.2, hs1, mul_one]
  set st2 := (if scale ≠ 1 then
      scaleV2 scale (extractAllV2 groups
        ⟨[], [], dblMax, dblMax, dblLowest, dblLowest, 0, 0, 0, 0⟩)
    else extractAllV2 groups
      ⟨[], [], dblMax, dblMax, dblLowest, dblLowest, 0, 0, 0, 0⟩) with hst2
  by_cases hemp : st2.curves.isEmpty ∧ st2.polylines.isEmpty
  · have hr3 : r = ⟨st2.curves, st2.polylines, 0, 0, 0, 0, st2.num_edges,
        st2.num_lines, st2.num_arcs, st2.num_polylines⟩ := by
      rw [hr2, v2Finalize, if_pos hemp]
    constructor
    · intro _
      rw [hr3]
      exact ⟨rfl, rfl, rfl, rfl⟩
    · intro hne
      exfalso
      rcases hne with hne | hne
      · exact hne (by rw [hr3]; exact List.isEmpty_iff.mp hemp.1)
      · exact hne (by rw [hr3]; exact List.isEmpty_iff.mp hemp.2)
  · have hr3 : r = ⟨st2.curves, st2.polylines, st2.min_x, st2.min_y,
        st2.max_x, st2.max_y, st2.num_edges, st2.num_lines, st2.num_arcs,
        st2.num_polylines⟩ := by
      rw [hr2, v2Finalize, if_neg hemp]
    constructor
    · intro hboth
      exfalso
      apply hemp
      rw [hr3] at hboth
      exact ⟨List.isEmpty_iff.mpr hboth.1, List.isEmpty_iff.mpr hboth.2⟩
    · intro _
      have e1 : r.min_x = ((v2Collected edgeMinXs groups).foldl min dblMax) * scale := by
        rw [hr3]; exact h2min
      have e2 : r.min_y = ((v2Collected edgeMinYs groups).foldl min dblMax) * scale := by
        rw [hr3]; exact h2miny
      have e3 : r.max_x = ((v2Collected edgeMaxXs groups).foldl max dblLowest) * scale := by
        rw [hr3]; exact h2maxx
      have e4 : r.max_y = ((v2Collected edgeMaxYs groups).foldl max dblLowest) * scale := by
        rw [hr3]; exact h2maxy
      refine ⟨⟨?_, ?_⟩, ⟨?_, ?_⟩, ⟨?_, ?_⟩, ⟨?_, ?_⟩⟩
      · rw [e1]
        exact List.mem_map_of_mem (fun v => v * scale)
          (foldl_min_mem _ _ hxne hbx)
      · intro v hv
        obtain ⟨x, hx, rfl⟩ := List.mem_map.mp hv
        rw [e1]
        exact mul_le_mul_of_nonneg_right (foldl_min_le_mem _ _ x hx) hscale
      · rw [e2]
        exact List.mem_map_of_mem (fun v => v * scale)
          (foldl_min_mem _ _ hyne hby)
      · intro v hv
        obtain ⟨x, hx, rfl⟩ := List.mem_map.mp hv
        rw [e2]
        exact mul_le_mul_of_nonneg_right (foldl_min_le_mem _ _ x hx) hscale
      · rw [e3]
        exact List.mem_map_of_mem (fun v => v * scale)
          (foldl_max_mem _ _ hxne2 hbx2)
      · intro v hv
        obtain ⟨x, hx, rfl⟩ := List.mem_map.mp hv
        rw [e3]
        exact mul_le_mul_of_nonneg_right (foldl_max_ge_mem _ _ x hx) hscale
      · rw [e4]
        exact List.mem_map_of_mem (fun v => v * scale)
          (foldl_max_mem _ _ hyne2 hby2)
      · intro v hv
        obtain ⟨x, hx, rfl⟩ := List.mem_map.mp hv
        rw [e4]
        exact mul_le_mul_of_nonneg_right (foldl_max_ge_mem _ _ x hx) hscale

theorem sqrt_unit_z : Real.sqrt ((0:ℝ) * 0 + 0 * 0 + 1 * 1) = 1 := by
  rw [show (0:ℝ) * 0 + 0 * 0 + 1 * 1 = 1 by ring, Real.sqrt_one]

theorem lineEdgeA_not_short : ¬ (dist3 (⟨1, 2, 0⟩ : Pt3) ⟨3, 4, 0⟩ ≤ 1e-7) := by
  have hd : dist3 (⟨1, 2, 0⟩ : Pt3) ⟨3, 4, 0⟩ = Real.sqrt 8 := by
    unfold dist3
    norm_num
  rw [hd]
  push_neg
  exact (Real.lt_sqrt (by norm_num)).mpr (by norm_num)

theorem lineEdgeA_step : extract_2d_curves_step 0
    ⟨[], [], dblMax, dblMax, dblLowest, dblLowest, 0, 0, 0, 0⟩ lineEdgeA
    = ⟨[⟨0, 0, 1, 2, 3, 4, 0, 0, 0, 0, 0, 0, 0, 0, false⟩], [], 1, 2, 3, 4,
        1, 1, 0, 0⟩ := by
  norm_num [extract_2d_curves_step, lineEdgeA, lineEdgeA_not_short, min_def,
    max_def, dblMax, dblLowest]
  have hd : dist3 (⟨1, 2, 0⟩ : Pt3) ⟨3, 4, 0⟩ = Real.sqrt 8 := by
    unfold dist3
    norm_num
  rw [hd]
  exact (Real.lt_sqrt (by norm_num)).mpr (by norm_num)

theorem groupsA_extract : extractAllV2 groupsA
    ⟨[], [], dblMax, dblMax, dblLowest, dblLowest, 0, 0, 0, 0⟩
    = ⟨[⟨0, 0, 1, 2, 3, 4, 0, 0, 0, 0, 0, 0, 0, 0, false⟩], [], 1, 2, 3, 4,
        1, 1, 0, 0⟩ := by
  unfold extractAllV2 extract_2d_curves groupsA
  simp only [List.foldl_cons, List.foldl_nil]
  rw [lineEdgeA_step]

theorem groupsA_neg_scale : compute_hlr_projection_v2 false 0 0 1 (-1) 0.01 groupsA
    = ⟨[⟨0, 0, -1, -2, -3, -4, 0, 0, 0, 0, 0, 0, 0, 0, false⟩], [],
        -1, -2, -3, -4, 1, 1, 0, 0⟩ := by
  have hsc : scaleV2 (-1)
      ⟨[⟨0, 0, 1, 2, 3, 4, 0, 0, 0, 0, 0, 0, 0, 0, false⟩], [], 1, 2, 3, 4,
        1, 1, 0, 0⟩
      = ⟨[⟨0, 0, -1, -2, -3, -4, 0, 0, 0, 0, 0, 0, 0, 0, false⟩], [],
          -1, -2, -3, -4, 1, 1, 0, 0⟩ := by
    unfold scaleV2 scaleCurve scalePolyline
    norm_num
  have hfin : v2Finalize
      ⟨[⟨0, 0, -1, -2, -3, -4, 0, 0, 0, 0, 0, 0, 0, 0, false⟩], [],
        -1, -2, -3, -4, 1, 1, 0, 0⟩
      = ⟨[⟨0, 0, -1, -2, -3, -4, 0, 0, 0, 0, 0, 0, 0, 0, false⟩], [],
          -1, -2, -3, -4, 1, 1, 0, 0⟩ := by
    unfold v2Finalize
    rw [if_neg (by simp)]
  unfold compute_hlr_projection_v2
  rw [if_neg (by simp), if_neg (by rw [sqrt_unit_z]; norm_num)]
  simp only [groupsA_extract]
  rw [if_pos (by norm_num : (-1:ℝ) ≠ 1), hsc, hfin]

/-- Counterexample to claim C5 as stated: with scale -1 on a single
straight edge from (1,2) to (3,4) the returned min_x is -1 while the
componentwise minimum over the emitted primitive coordinates per the spec
words is -3. -/
theorem v2_bbox_scale_counterexample :
    (compute_hlr_projection_v2 false 0 0 1 (-1) 0.01 groupsA).min_x = -1
    ∧ (specBBoxV2
        (compute_hlr_projection_v2 false 0 0 1 (-1) 0.01 groupsA).curves
        (compute_hlr_projection_v2 false 0 0 1 (-1) 0.01 groupsA).polylines).1
      = -3
    ∧ (compute_hlr_projection_v2 false 0 0 1 (-1) 0.01 groupsA).min_x
      ≠ (specBBoxV2
          (compute_hlr_projection_v2 false 0 0 1 (-1) 0.01 groupsA).curves
          (compute_hlr_projection_v2 false 0 0 1 (-1) 0.01 groupsA).polylines).1 := by
  have hspec : (specBBoxV2
      [⟨0, 0, -1, -2, -3, -4, (0:ℝ), 0, 0, 0, 0, 0, 0, 0, false⟩]
      ([] : List Polyline2D)).1 = -3 := by
    norm_num [specBBoxV2, curveSpecXs, curveSpecYs, min_def, max_def, dblMax,
      dblLowest]
  refine ⟨?_, ?_, ?_⟩
  · rw [groupsA_neg_scale]
  · rw [groupsA_neg_scale]
    exact hspec
  · rw [groupsA_neg_scale]
    show (-1:ℝ) ≠ _
    rw [hspec]
    norm_num

theorem groupsA_unit_scale : compute_hlr_projection_v2 false 0 0 1 1 0.01 groupsA
    = ⟨[⟨0, 0, 1, 2, 3, 4, 0, 0, 0, 0, 0, 0, 0, 0, false⟩], [], 1, 2, 3, 4,
        1, 1, 0, 0⟩ := by
  unfold compute_hlr_projection_v2
  rw [if_neg (by simp), if_neg (by rw [sqrt_unit_z]; norm_num)]
  simp only [groupsA_extract]
  rw [if_neg (by norm_num)]
  unfold v2Finalize
  rw [if_neg (by simp)]

theorem groupsA_minXs : v2Collected edgeMinXs groupsA = [1, 3] := by
  simp [v2Collected, groupsA, edgeMinXs, lineEdgeA, lineEdgeA_not_short]

theorem groupsA_minYs : v2Collected edgeMinYs groupsA = [2, 4] := by
  simp [v2Collected, groupsA, edgeMinYs, lineEdgeA, lineEdgeA_not_short]

theorem groupsA_maxXs : v2Collected edgeMaxXs groupsA = [1, 3] := by
  simp [v2Collected, groupsA, edgeMaxXs, lineEdgeA, lineEdgeA_not_short]

theorem groupsA_maxYs : v2Collected edgeMaxYs groupsA = [2, 4] := by
  simp [v2Collected, groupsA, edgeMaxYs, lineEdgeA, lineEdgeA_not_short]

/-- Witness for claim C5 (amended) on the single-edge classifier output
with scale 1. -/
theorem v2_bbox_minmax_witness :
    (compute_hlr_projection_v2 false 0 0 1 1 0.01 groupsA).min_x
      ∈ (v2Collected edgeMinXs groupsA).map (fun v => v * 1)
    ∧ ∀ v ∈ (v2Collected edgeMinXs groupsA).map (fun v => v * 1),
        (compute_hlr_projection_v2 false 0 0 1 1 0.01 groupsA).min_x ≤ v := by
  have h := v2_bbox_minmax 0 0 1 1 0.01 groupsA _ rfl
    (by rw [sqrt_unit_z]; norm_num) (by norm_num)
    (by rw [groupsA_minXs]; simp) (by rw [groupsA_minYs]; simp)
    (by rw [groupsA_maxXs]; simp) (by rw [groupsA_maxYs]; simp)
    (by rw [groupsA_minXs]
        intro x hx
        simp at hx
        rcases hx with rfl | rfl <;> norm_num [dblMax])
    (by rw [groupsA_minYs]
        intro x hx
        simp at hx
        rcases hx with rfl | rfl <;> norm_num [dblMax])
    (by rw [groupsA_maxXs]
        intro x hx
        simp at hx
        rcases hx with rfl | rfl <;> norm_num [dblLowest])
    (by rw [groupsA_maxYs]
        intro x hx
        simp at hx
        rcases hx with rfl | rfl <;> norm_num [dblLowest])
  exact (h.2 (Or.inl (by rw [groupsA_unit_scale]; simp))).1

theorem valley_cyclicEdges : cyclicEdges valley =
    [(⟨0, 0⟩, ⟨6, 0⟩), (⟨6, 0⟩, ⟨6, 2⟩), (⟨6, 2⟩, ⟨4, 2⟩), (⟨4, 2⟩, ⟨4, 0.5⟩),
     (⟨4, 0.5⟩, ⟨2, 0.5⟩), (⟨2, 0.5⟩, ⟨2, 1⟩), (⟨2, 1⟩, ⟨2, 2⟩),
     (⟨2, 2⟩, ⟨0, 2⟩), (⟨0, 2⟩, ⟨0, 0⟩)] := rfl

theorem valley_i1 : hatchEdgeIntersection 1 0 3 1 ((⟨0, 0⟩ : Pt2), (⟨6, 0⟩ : Pt2))
    = none := by
  norm_num [hatchEdgeIntersection]

theorem valley_i2 : hatchEdgeIntersection 1 0 3 1 ((⟨6, 0⟩ : Pt2), (⟨6, 2⟩ : Pt2))
    = some 3 := by
  norm_num [hatchEdgeIntersection]

theorem valley_i3 : hatchEdgeIntersection 1 0 3 1 ((⟨6, 2⟩ : Pt2), (⟨4, 2⟩ : Pt2))
    = none := by
  norm_num [hatchEdgeIntersection]

theorem valley_i4 : hatchEdgeIntersection 1 0 3 1 ((⟨4, 2⟩ : Pt2), (⟨4, 0.5⟩ : Pt2))
    = some 1 := by
  norm_num [hatchEdgeIntersection]
  intro h
  rw [show |(3 / 2 : ℝ)| = 3 / 2 from abs_of_pos (by norm_num)] at h
  norm_num at h

theorem valley_i5 : hatchEdgeIntersection 1 0 3 1 ((⟨4, 0.5⟩ : Pt2), (⟨2, 0.5⟩ : Pt2))
    = none := by
  norm_num [hatchEdgeIntersection]

theorem valley_i6 : hatchEdgeIntersection 1 0 3 1 ((⟨2, 0.5⟩ : Pt2), (⟨2, 1⟩ : Pt2))
    = some (-1) := by
  norm_num [hatchEdgeIntersection]
  intro h
  rw [show |(1 / 2 : ℝ)| = 1 / 2 from abs_of_pos (by norm_num)] at h
  norm_num at h

theorem valley_i7 : hatchEdgeIntersection 1 0 3 1 ((⟨2, 1⟩ : Pt2), (⟨2, 2⟩ : Pt2))
    = some (-1) := by
  norm_num [hatchEdgeIntersection]

theorem valley_i8 : hatchEdgeIntersection 1 0 3 1 ((⟨2, 2⟩ : Pt2), (⟨0, 2⟩ : Pt2))
    = none := by
  norm_num [hatchEdgeIntersection]

theorem valley_i9 : hatchEdgeIntersection 1 0 3 1 ((⟨0, 2⟩ : Pt2), (⟨0, 0⟩ : Pt2))
    = some (-3) := by
  norm_num [hatchEdgeIntersection]

theorem valley_crossings : (cyclicEdges valley).filterMap
    (hatchEdgeIntersection 1 0 3 1) = [3, 1, -1, -1, -3] := by
  rw [valley_cyclicEdges]
  simp only [List.filterMap_cons, valley_i1, valley_i2, valley_i3, valley_i4,
    valley_i5, valley_i6, valley_i7, valley_i8, valley_i9, List.filterMap_nil]

theorem valley_sorted : (([3, 1, -1, -1, -3] : List ℝ).insertionSort
    (fun a b => a ≤ b)) = [-3, -1, -1, 1, 3] := by
  norm_num [List.insertionSort, List.orderedInsert]

theorem sqrt_four : Real.sqrt 4 = 2 := by
  rw [show (4:ℝ) = 2 ^ 2 by norm_num]
  exact Real.sqrt_sq (by norm_num)

theorem valley_paired : pairIntersections 1 0 3 1 [-3, -1, -1, 1, 3]
    = [⟨0, 1, 2, 1⟩, ⟨2, 1, 4, 1⟩] := by
  norm_num [pairIntersections, sqrt_four]

theorem valley_line_at_3 : HatchLine.mk 2 1 4 1
    ∈ hatchSegmentsAtOffset valley 1 0 3 4 3 := by
  unfold hatchSegmentsAtOffset
  norm_num
  rw [valley_crossings, valley_sorted, valley_paired]
  simp

theorem valley_num_lines : hatch_num_lines 1 0 0 6 8 = 12 := by
  have hsq : Real.sqrt (((6:ℝ) - 0) ^ 2 + ((8:ℝ) - 0) ^ 2) = 10 := by
    rw [show ((6:ℝ) - 0) ^ 2 + ((8:ℝ) - 0) ^ 2 = 10 ^ 2 by norm_num]
    exact Real.sqrt_sq (by norm_num)
  unfold hatch_num_lines
  rw [hsq, show (10:ℝ) / 1 = ((10:ℤ) : ℝ) by norm_num, Int.floor_intCast]
  norm_num

/-- Claim C1 contradicted on a concrete run (supporting the code_bug
verdict): on the simple counter-clockwise valley polygon, with hatch angle
0 degrees, spacing 1 and bounding rectangle (0,0) to (6,8), the code emits
the hatch segment from (2,1) to (4,1); its midpoint (3,1) has even-odd
crossing count 2, so it lies strictly outside the polygon, while the spec
property P1 requires every emitted midpoint to lie strictly inside. -/
theorem hatch_midpoint_outside :
    HatchLine.mk 2 1 4 1 ∈ generate_hatch_lines_for_region valley 0 1 0 0 6 8
    ∧ ((2:ℝ) + 4) / 2 = 3 ∧ ((1:ℝ) + 1) / 2 = 1
    ∧ evenOddCrossings valley ⟨3, 1⟩ = 2 := by
  have hcos : Real.cos (0 * Real.pi / 180) = 1 := by
    rw [show (0:ℝ) * Real.pi / 180 = 0 by ring]
    exact Real.cos_zero
  have hsin : Real.sin (0 * Real.pi / 180) = 0 := by
    rw [show (0:ℝ) * Real.pi / 180 = 0 by ring]
    exact Real.sin_zero
  refine ⟨?_, by norm_num, by norm_num, ?_⟩
  · unfold generate_hatch_lines_for_region
    rw [if_neg (by norm_num [valley])]
    simp only [hcos, hsin, valley_num_lines]
    refine List.mem_flatMap.mpr ⟨3, by decide, ?_⟩
    have harg : (((3:ℤ) : ℝ) * 1) = 3 := by push_cast; ring
    rw [harg, show ((0:ℝ) + 6) / 2 = 3 by norm_num,
      show ((0:ℝ) + 8) / 2 = 4 by norm_num]
    exact valley_line_at_3
  · norm_num [evenOddCrossings, valley_cyclicEdges]
